import Mathlib

set_option maxRecDepth 100000

/-!
# Formal model of the agentic-builder orchestration core

A shallow embedding of the workflow/task orchestration engine:
task storage and the dependency-gated runnability query
(`storage/tasks.py`), context windowing (`context/windowing.py`),
budget accounting (`context/budget.py`), the stage executor
(`orchestration/stage_executor.py`, `agents/executor.py`) and the
workflow engine (`orchestration/engine.py`, `storage/workflows.py`).

Database tables are modelled as Lean lists, SQL queries as filters,
the asynchronous Task Executor collaborator as an oracle assigning
each task id an outcome (success, reported failure, or raised
exception), and timestamps are not modelled (no claim mentions them).
-/

namespace AgenticBuilder

/-- Workflow statuses, from `core/constants.py` (`WorkflowStatus`). -/
inductive WorkflowStatus where
  | pending
  | running
  | paused
  | completed
  | failed
  | cancelled
  deriving DecidableEq

/-- Task statuses, from `core/constants.py` (`TaskStatus`). -/
inductive TaskStatus where
  | pending
  | assigned
  | running
  | completed
  | failed
  | blocked
  deriving DecidableEq

/-- Stage statuses, from `core/constants.py` (`StageStatus`). -/
inductive StageStatus where
  | pending
  | running
  | completed
  | failed
  | skipped
  deriving DecidableEq

/-- A row of the `tasks` table (the fields the orchestration core reads;
title, description, priority and audit fields are carried nowhere into
control flow and are omitted). -/
structure Task where
  id : String
  workflow_run_id : String
  stage_id : Option String
  status : TaskStatus
  agent_type : String
  deriving DecidableEq

/-- A row of the `task_dependencies` table: the edge
`task_id → depends_on_task_id`. -/
structure TaskDependency where
  task_id : String
  depends_on_task_id : String
  deriving DecidableEq

/-- The inner `EXISTS` subquery of `get_runnable_tasks`
(`storage/tasks.py`): some dependency edge of task `tid` joins
(`JOIN tasks dt ON td.depends_on_task_id = dt.id`) to a task whose
status differs from completed.  An edge whose target id matches no
task row contributes nothing, exactly as in the SQL join. -/
def dependencyBlocks (tasks : List Task) (deps : List TaskDependency)
    (tid : String) : Prop :=
  ∃ td ∈ deps, td.task_id = tid ∧
    ∃ dt ∈ tasks, dt.id = td.depends_on_task_id ∧
      dt.status ≠ TaskStatus.completed

instance (tasks : List Task) (deps : List TaskDependency) (tid : String) :
    Decidable (dependencyBlocks tasks deps tid) := by
  unfold dependencyBlocks; infer_instance

/-- `get_runnable_tasks` (`storage/tasks.py`): pending tasks of the
workflow with no blocking dependency edge (the SQL `NOT EXISTS`). -/
def get_runnable_tasks (tasks : List Task) (deps : List TaskDependency)
    (workflow_run_id : String) : List Task :=
  tasks.filter fun t =>
    decide (t.workflow_run_id = workflow_run_id ∧
      t.status = TaskStatus.pending ∧ ¬ dependencyBlocks tasks deps t.id)

/-- C1: when every dependency edge points at an existing task (closed
graph) and task ids are unique, `get_runnable_tasks` returns exactly
the workflow's pending tasks all of whose dependency edges point to a
completed task; a pending task with no outgoing edges is included
(its edge condition holds vacuously). -/
theorem get_runnable_tasks_spec (tasks : List Task)
    (deps : List TaskDependency) (wf : String) (t : Task)
    (hclosed : ∀ td ∈ deps, ∃ dt ∈ tasks, dt.id = td.depends_on_task_id)
    (huniq : (tasks.map Task.id).Nodup) :
    t ∈ get_runnable_tasks tasks deps wf ↔
      t ∈ tasks ∧ t.workflow_run_id = wf ∧ t.status = TaskStatus.pending ∧
        ∀ td ∈ deps, td.task_id = t.id →
          ∃ dt ∈ tasks, dt.id = td.depends_on_task_id ∧
            dt.status = TaskStatus.completed := by
  unfold get_runnable_tasks
  rw [List.mem_filter, decide_eq_true_iff]
  constructor
  · rintro ⟨hmem, hwf, hpend, hnb⟩
    refine ⟨hmem, hwf, hpend, ?_⟩
    intro td htd heq
    obtain ⟨dt, hdt, hid⟩ := hclosed td htd
    refine ⟨dt, hdt, hid, ?_⟩
    by_contra hne
    exact hnb ⟨td, htd, heq, dt, hdt, hid, hne⟩
  · rintro ⟨hmem, hwf, hpend, hdeps⟩
    refine ⟨hmem, hwf, hpend, ?_⟩
    rintro ⟨td, htd, heq, dt, hdt, hid, hne⟩
    obtain ⟨dt', hdt', hid', hco⟩ := hdeps td htd heq
    have : dt = dt' :=
      List.inj_on_of_nodup_map huniq hdt hdt' (hid.trans hid'.symm)
    exact hne (this ▸ hco)

/-- Two concrete tasks used by the C1 witness: `b` is completed,
`a` is pending and depends on `b`. -/
def taskA : Task :=
  { id := "a", workflow_run_id := "w", stage_id := none,
    status := TaskStatus.pending, agent_type := "PM" }

def taskB : Task :=
  { id := "b", workflow_run_id := "w", stage_id := none,
    status := TaskStatus.completed, agent_type := "PM" }

theorem get_runnable_tasks_spec_witness :
    taskA ∈ get_runnable_tasks [taskA, taskB] [⟨"a", "b"⟩] "w" ↔
      taskA ∈ [taskA, taskB] ∧ taskA.workflow_run_id = "w" ∧
        taskA.status = TaskStatus.pending ∧
        ∀ td ∈ [(⟨"a", "b"⟩ : TaskDependency)], td.task_id = taskA.id →
          ∃ dt ∈ [taskA, taskB], dt.id = td.depends_on_task_id ∧
            dt.status = TaskStatus.completed :=
  get_runnable_tasks_spec [taskA, taskB] [⟨"a", "b"⟩] "w" taskA
    (by decide) (by decide)

/-- C10: a dangling dependency edge (target id matching no task row)
does not block runnability: a pending task of the workflow whose every
edge that does join to an existing task joins to a completed one is
returned by `get_runnable_tasks`, with no closed-graph assumption. -/
theorem get_runnable_tasks_dangling (tasks : List Task)
    (deps : List TaskDependency) (wf : String) (t : Task)
    (hmem : t ∈ tasks) (hwf : t.workflow_run_id = wf)
    (hpend : t.status = TaskStatus.pending)
    (hdeps : ∀ td ∈ deps, td.task_id = t.id →
      ∀ dt ∈ tasks, dt.id = td.depends_on_task_id →
        dt.status = TaskStatus.completed) :
    t ∈ get_runnable_tasks tasks deps wf := by
  unfold get_runnable_tasks
  rw [List.mem_filter, decide_eq_true_iff]
  refine ⟨hmem, hwf, hpend, ?_⟩
  rintro ⟨td, htd, heq, dt, hdt, hid, hne⟩
  exact hne (hdeps td htd heq dt hdt hid)

/-- Witness for C10: a pending task whose only dependency edge points
at the nonexistent id `"ghost"` is reported runnable. -/
theorem get_runnable_tasks_dangling_witness :
    taskA ∈ get_runnable_tasks [taskA] [⟨"a", "ghost"⟩] "w" :=
  get_runnable_tasks_dangling [taskA] [⟨"a", "ghost"⟩] "w" taskA
    (by decide) (by decide) (by decide) (by decide)

/-! ## Context windowing (`context/windowing.py`) -/

/-- Windowing constants from `core/constants.py`. -/
def MAX_CHARS_PER_DEPENDENCY : Nat := 8000

def MAX_TOTAL_CONTEXT_CHARS : Nat := 32000

def SUMMARY_TARGET_CHARS : Nat := 1000

/-- Python `str.rfind` on a character: the index of the last
occurrence, `none` when absent (Python returns `-1`). -/
def rfindIdx (c : Char) : List Char → Option Nat
  | [] => none
  | a :: as =>
    match rfindIdx c as with
    | some i => some (i + 1)
    | none => if a = c then some 0 else none

/-- The ellipsis marker `"..."` appended by `truncate_to_summary`. -/
def ellipsis : List Char := ['.', '.', '.']

/-- `truncate_to_summary` (`context/windowing.py`): return the text
unchanged when it fits, otherwise cut to `target_chars` and either
keep up to the last period (when it sits past half the target) or
append the ellipsis marker to the raw cut.  A missing period
(Python `rfind` result `-1`) always fails the `> target_chars // 2`
test, hence lands in the ellipsis branch. -/
def truncate_to_summary (text : List Char) (target_chars : Nat) : List Char :=
  if text.length ≤ target_chars then text
  else
    match rfindIdx '.' (text.take target_chars) with
    | some last_period =>
      if target_chars / 2 < last_period then
        (text.take target_chars).take (last_period + 1)
      else (text.take target_chars) ++ ellipsis
    | none => (text.take target_chars) ++ ellipsis

/-- The per-item step of `apply_windowing`: window the individual
dependency output to `MAX_CHARS_PER_DEPENDENCY`. -/
def cap_dependency (output : List Char) : List Char :=
  if MAX_CHARS_PER_DEPENDENCY < output.length then
    truncate_to_summary output MAX_CHARS_PER_DEPENDENCY
  else output

/-- A dependency dictionary handed to `apply_windowing`: the `output`
entry plus the remaining keys (`rest`), which are copied through
unchanged by `{**dep, "output": output}`. -/
structure Dep (α : Type) where
  rest : α
  output : List Char

/-- The loop of `apply_windowing` with the running `total_chars`
accumulator made explicit: cap each output individually, then fit it
into the remaining cumulative budget (when more than
`SUMMARY_TARGET_CHARS` of budget is left) or drop the dependency. -/
def apply_windowing_aux {α : Type} (total_chars : Nat) :
    List (Dep α) → List (Dep α)
  | [] => []
  | dep :: rest =>
    let output := cap_dependency dep.output
    if MAX_TOTAL_CONTEXT_CHARS < total_chars + output.length then
      if SUMMARY_TARGET_CHARS < MAX_TOTAL_CONTEXT_CHARS - total_chars then
        let output2 :=
          truncate_to_summary output (MAX_TOTAL_CONTEXT_CHARS - total_chars)
        { dep with output := output2 } ::
          apply_windowing_aux (total_chars + output2.length) rest
      else
        apply_windowing_aux total_chars rest
    else
      { dep with output := output } ::
        apply_windowing_aux (total_chars + output.length) rest

/-- `apply_windowing` (`context/windowing.py`), starting from
`total_chars = 0`. -/
def apply_windowing {α : Type} (dependencies : List (Dep α)) : List (Dep α) :=
  apply_windowing_aux 0 dependencies

theorem rfindIdx_lt_length {c : Char} : ∀ {l : List Char} {i : Nat},
    rfindIdx c l = some i → i < l.length := by
  intro l
  induction l with
  | nil => intro i h; simp [rfindIdx] at h
  | cons a as ih =>
    intro i h
    cases hr : rfindIdx c as with
    | some j =>
      have h2 : some (j + 1) = some i := by
        rw [← h]; simp [rfindIdx, hr]
      have h3 : j + 1 = i := Option.some.inj h2
      have h4 := ih hr
      simp only [List.length_cons]
      omega
    | none =>
      by_cases ha : a = c
      · have h2 : some 0 = some i := by
          rw [← h]; simp [rfindIdx, hr, ha]
        have h3 : (0 : Nat) = i := Option.some.inj h2
        simp only [List.length_cons]
        omega
      · exfalso
        have h2 : (none : Option Nat) = some i := by
          rw [← h]; simp [rfindIdx, hr, ha]
        exact Option.noConfusion h2

theorem truncate_to_summary_of_le {text : List Char} {target : Nat}
    (h : text.length ≤ target) : truncate_to_summary text target = text := by
  unfold truncate_to_summary
  exact if_pos h

theorem truncate_to_summary_length_le {text : List Char} {target : Nat}
    (h : target < text.length) :
    (truncate_to_summary text target).length ≤ target + 3 := by
  have htk : (text.take target).length = target := by
    rw [List.length_take]; omega
  unfold truncate_to_summary
  rw [if_neg (not_le.mpr h)]
  cases hr : rfindIdx '.' (text.take target) with
  | none =>
    simp [ellipsis, htk]
  | some i =>
    dsimp only
    by_cases hi : target / 2 < i
    · rw [if_pos hi]
      have hlt : i < target := htk ▸ rfindIdx_lt_length hr
      rw [List.length_take]
      omega
    · rw [if_neg hi]
      simp [ellipsis, htk]

/-- The individually capped output never exceeds the per-dependency
cap by more than the ellipsis marker. -/
theorem cap_dependency_length (output : List Char) :
    (cap_dependency output).length ≤ MAX_CHARS_PER_DEPENDENCY + 3 := by
  unfold cap_dependency
  by_cases h : MAX_CHARS_PER_DEPENDENCY < output.length
  · rw [if_pos h]
    exact truncate_to_summary_length_le h
  · rw [if_neg h]
    omega

theorem apply_windowing_aux_item {α : Type} :
    ∀ (l : List (Dep α)) (total : Nat) (d : Dep α),
      d ∈ apply_windowing_aux total l →
        d.output.length ≤ MAX_CHARS_PER_DEPENDENCY + 5 := by
  intro l
  induction l with
  | nil => intro total d hd; simp [apply_windowing_aux] at hd
  | cons dep rest ih =>
    intro total d hd
    simp only [apply_windowing_aux] at hd
    have hL : (cap_dependency dep.output).length ≤
        MAX_CHARS_PER_DEPENDENCY + 3 := cap_dependency_length dep.output
    by_cases hb : MAX_TOTAL_CONTEXT_CHARS <
        total + (cap_dependency dep.output).length
    · rw [if_pos hb] at hd
      by_cases hrem : SUMMARY_TARGET_CHARS < MAX_TOTAL_CONTEXT_CHARS - total
      · rw [if_pos hrem] at hd
        rcases List.mem_cons.mp hd with hd | hd
        · subst hd
          simp only
          have hpos : 0 < MAX_TOTAL_CONTEXT_CHARS - total := by
            have : (0:Nat) < SUMMARY_TARGET_CHARS + 1 := by omega
            omega
          have hlt : MAX_TOTAL_CONTEXT_CHARS - total <
              (cap_dependency dep.output).length := by omega
          have := truncate_to_summary_length_le hlt
          omega
        · exact ih _ d hd
      · rw [if_neg hrem] at hd
        exact ih _ d hd
    · rw [if_neg hb] at hd
      rcases List.mem_cons.mp hd with hd | hd
      · subst hd; simp only; omega
      · exact ih _ d hd

theorem apply_windowing_aux_sum {α : Type} :
    ∀ (l : List (Dep α)) (total : Nat),
      total ≤ MAX_TOTAL_CONTEXT_CHARS + 3 →
        total + ((apply_windowing_aux total l).map
            (fun d => d.output.length)).sum ≤
          MAX_TOTAL_CONTEXT_CHARS + 3 := by
  intro l
  induction l with
  | nil => intro total htot; simpa [apply_windowing_aux] using htot
  | cons dep rest ih =>
    intro total htot
    simp only [apply_windowing_aux]
    by_cases hb : MAX_TOTAL_CONTEXT_CHARS <
        total + (cap_dependency dep.output).length
    · rw [if_pos hb]
      by_cases hrem : SUMMARY_TARGET_CHARS < MAX_TOTAL_CONTEXT_CHARS - total
      · rw [if_pos hrem]
        simp only [List.map_cons, List.sum_cons]
        have hpos : 0 < MAX_TOTAL_CONTEXT_CHARS - total := by omega
        have htlt : total < MAX_TOTAL_CONTEXT_CHARS := by omega
        have hlt : MAX_TOTAL_CONTEXT_CHARS - total <
            (cap_dependency dep.output).length := by omega
        have hlen := truncate_to_summary_length_le hlt
        have hnew : total + (truncate_to_summary (cap_dependency dep.output)
            (MAX_TOTAL_CONTEXT_CHARS - total)).length ≤
            MAX_TOTAL_CONTEXT_CHARS + 3 := by omega
        have := ih (total + (truncate_to_summary (cap_dependency dep.output)
          (MAX_TOTAL_CONTEXT_CHARS - total)).length) hnew
        omega
      · rw [if_neg hrem]
        exact ih total htot
    · rw [if_neg hb]
      simp only [List.map_cons, List.sum_cons]
      have hnew : total + (cap_dependency dep.output).length ≤
          MAX_TOTAL_CONTEXT_CHARS + 3 := by omega
      have := ih (total + (cap_dependency dep.output).length) hnew
      omega

/-- `rfindIdx` finds nothing in a run of a different character. -/
theorem rfindIdx_replicate_ne {c a : Char} (h : a ≠ c) :
    ∀ n, rfindIdx c (List.replicate n a) = none := by
  intro n
  induction n with
  | zero => simp [rfindIdx]
  | succ m ih => simp [List.replicate_succ, rfindIdx, ih, h]

/-- Evaluating `truncate_to_summary` on 9000 repeated letters with the
per-dependency cap: the raw cut plus the ellipsis marker. -/
theorem truncate_to_summary_replicate_9000 :
    truncate_to_summary (List.replicate 9000 'a') MAX_CHARS_PER_DEPENDENCY =
      List.replicate 8000 'a' ++ ellipsis := by
  have hlen : (List.replicate 9000 'a').length = 9000 := by
    rw [List.length_replicate]
  have htake : (List.replicate 9000 'a').take MAX_CHARS_PER_DEPENDENCY =
      List.replicate 8000 'a' := by
    rw [List.take_replicate]
    have hm : min MAX_CHARS_PER_DEPENDENCY 9000 = 8000 := by
      unfold MAX_CHARS_PER_DEPENDENCY; omega
    rw [hm]
  unfold truncate_to_summary
  rw [if_neg (by rw [hlen]; unfold MAX_CHARS_PER_DEPENDENCY; omega)]
  rw [htake, rfindIdx_replicate_ne (by decide) 8000]

/-- Evaluating a singleton `apply_windowing` call whose output exceeds
the per-dependency cap but whose capped form fits the total budget. -/
theorem apply_windowing_singleton_big {α : Type} (r : α) (out : List Char)
    (hbig : MAX_CHARS_PER_DEPENDENCY < out.length)
    (hfit : (truncate_to_summary out MAX_CHARS_PER_DEPENDENCY).length ≤
      MAX_TOTAL_CONTEXT_CHARS) :
    apply_windowing [(⟨r, out⟩ : Dep α)] =
      [⟨r, truncate_to_summary out MAX_CHARS_PER_DEPENDENCY⟩] := by
  unfold apply_windowing
  simp only [apply_windowing_aux]
  have hcap : cap_dependency (⟨r, out⟩ : Dep α).output =
      truncate_to_summary out MAX_CHARS_PER_DEPENDENCY := by
    unfold cap_dependency
    exact if_pos hbig
  rw [hcap]
  rw [if_neg (by omega)]

/-- Evaluating `apply_windowing` on one 9000-character dependency. -/
theorem apply_windowing_replicate_9000 :
    apply_windowing [(⟨(), List.replicate 9000 'a'⟩ : Dep Unit)] =
      [⟨(), List.replicate 8000 'a' ++ ellipsis⟩] := by
  have hl : (List.replicate 8000 'a' ++ ellipsis).length = 8003 := by
    rw [List.length_append, List.length_replicate]
    rfl
  rw [apply_windowing_singleton_big () (List.replicate 9000 'a')
    (by rw [List.length_replicate]; unfold MAX_CHARS_PER_DEPENDENCY; omega)
    (by rw [truncate_to_summary_replicate_9000, hl]
        unfold MAX_TOTAL_CONTEXT_CHARS; omega)]
  rw [truncate_to_summary_replicate_9000]

/-- C7 counterexample: on a single dependency of 9000 identical
characters (no period occurs), the returned output has 8003
characters, strictly above the per-dependency cap of 8000 — the
appended ellipsis marker overflows the cap, so the claimed per-item
bound fails on the code. -/
theorem apply_windowing_cap_counterexample :
    ((apply_windowing [(⟨(), List.replicate 9000 'a'⟩ : Dep Unit)]).map
        (fun d => d.output.length)) = [8003] ∧
      MAX_CHARS_PER_DEPENDENCY < 8003 := by
  constructor
  · have hl : (List.replicate 8000 'a' ++ ellipsis).length = 8003 := by
      rw [List.length_append, List.length_replicate]
      rfl
    have hmap : (apply_windowing
          [(⟨(), List.replicate 9000 'a'⟩ : Dep Unit)]).map
          (fun d => d.output.length) =
        [(List.replicate 8000 'a' ++ ellipsis).length] := by
      rw [apply_windowing_replicate_9000]
      rfl
    rw [hmap, hl]
  · unfold MAX_CHARS_PER_DEPENDENCY; omega

/-- C7 amended: each returned output has length at most the
per-dependency cap plus 5, and the returned lengths sum to at most
the total cap plus 3; the slack is the appended ellipsis marker, and
otherwise the claimed per-item and total ceilings hold as stated. -/
theorem apply_windowing_bounds {α : Type} (dependencies : List (Dep α)) :
    (∀ d ∈ apply_windowing dependencies,
        d.output.length ≤ MAX_CHARS_PER_DEPENDENCY + 5) ∧
      ((apply_windowing dependencies).map (fun d => d.output.length)).sum ≤
        MAX_TOTAL_CONTEXT_CHARS + 3 := by
  constructor
  · intro d hd
    exact apply_windowing_aux_item dependencies 0 d hd
  · have := apply_windowing_aux_sum dependencies 0 (by omega)
    simpa [apply_windowing] using this

theorem apply_windowing_bounds_witness :
    (⟨(), List.replicate 8000 'a' ++ ellipsis⟩ : Dep Unit).output.length ≤
        MAX_CHARS_PER_DEPENDENCY + 5 ∧
      ((apply_windowing [(⟨(), List.replicate 9000 'a'⟩ : Dep Unit)]).map
          (fun d => d.output.length)).sum ≤ MAX_TOTAL_CONTEXT_CHARS + 3 := by
  have h := apply_windowing_bounds [(⟨(), List.replicate 9000 'a'⟩ : Dep Unit)]
  refine ⟨h.1 _ ?_, h.2⟩
  rw [apply_windowing_replicate_9000]
  exact List.mem_singleton.mpr rfl

/-! ## Budget accounting (`context/budget.py`) -/

/-- Claude model tiers, from `core/constants.py` (`ModelTier`). -/
inductive ModelTier where
  | haiku
  | sonnet
  | opus
  deriving DecidableEq

/-- Fuel-driven binary logarithm: `log2fuel n n` is the floor of the
base-2 logarithm of a positive `n` (structural recursion so the
kernel can evaluate it on literals). -/
def log2fuel : Nat → Nat → Nat
  | 0, _ => 0
  | fuel + 1, n => if n < 2 then 0 else log2fuel fuel (n / 2) + 1

/-- An unreduced fraction `num / den` with a positive denominator in
every constructed value.  The IEEE-754 model below computes over
these pairs with plain integer arithmetic, so that the kernel can
evaluate it; `toRat` interprets a pair as the rational it denotes. -/
structure Frac where
  num : Int
  den : Nat
  deriving DecidableEq

def Frac.mul (x y : Frac) : Frac := ⟨x.num * y.num, x.den * y.den⟩

def Frac.add (x y : Frac) : Frac :=
  ⟨x.num * y.den + y.num * x.den, x.den * y.den⟩

def Frac.toRat (x : Frac) : ℚ := mkRat x.num x.den

def Frac.ofRat (q : ℚ) : Frac := ⟨q.num, q.den⟩

/-- Floor of the base-2 logarithm of a positive fraction `a / b`:
with `2 ^ t > b` it is `⌊log2 (a * 2 ^ t / b)⌋ - t`, and the inner
floor commutes with the integer division because powers of two are
integers. -/
def Frac.floorLog2 (x : Frac) : Int :=
  let a := x.num.toNat
  let b := x.den
  let t := log2fuel b b + 1
  let s := a * 2 ^ t / b
  (log2fuel s s : Int) - t

def Frac.mulPow2 (x : Frac) (i : Int) : Frac :=
  if 0 ≤ i then ⟨x.num * 2 ^ i.toNat, x.den⟩
  else ⟨x.num, x.den * 2 ^ (-i).toNat⟩

/-- Round a non-negative fraction to the nearest integer, ties to
even: the fractional part `r / den` is compared with one half by
cross-multiplication. -/
def Frac.roundNearestEven (x : Frac) : Int :=
  let n := x.num / (x.den : Int)
  let r := x.num - n * x.den
  if 2 * r < (x.den : Int) then n
  else if (x.den : Int) < 2 * r then n + 1
  else if n % 2 = 0 then n else n + 1

/-- IEEE-754 binary64 rounding (round to nearest, ties to even) of a
non-negative fraction: scale into `[2 ^ 52, 2 ^ 53)` by the exponent
`e = ⌊log2 x⌋`, round the 53-bit significand, and scale back.
Overflow and subnormals are not modelled; the magnitudes produced by
`calculate_cost` (between roughly `2 ^ -23` and `2 ^ 7` dollars for
any realistic token count) never reach either regime, where this
function is exactly the double rounding Python performs. -/
def Frac.fl (x : Frac) : Frac :=
  if x.num = 0 then ⟨0, 1⟩
  else
    let e := x.floorLog2
    let m := (x.mulPow2 (52 - e)).roundNearestEven
    if 0 ≤ e - 52 then ⟨m * 2 ^ (e - 52).toNat, 1⟩
    else ⟨m, 2 ^ (52 - e).toNat⟩

/-- Per-million-token input/output rates for one tier. -/
structure TierCost where
  input : ℚ
  output : ℚ

/-- `TOKEN_COSTS` from `core/constants.py`: haiku 0.25/1.25,
sonnet 3.0/15.0, opus 15.0/75.0.  Each of these float literals is a
dyadic rational, hence the double stored by Python is exactly the
rational written here. -/
def TOKEN_COSTS : ModelTier → TierCost
  | ModelTier.haiku => ⟨mkRat 1 4, mkRat 5 4⟩
  | ModelTier.sonnet => ⟨mkRat 3 1, mkRat 15 1⟩
  | ModelTier.opus => ⟨mkRat 15 1, mkRat 75 1⟩

/-- `calculate_cost` (`context/budget.py`), float-faithfully: Python
evaluates `(tokens / 1_000_000) * rate` for each of the two channels
and adds them, each of the three operations on IEEE-754 doubles, so
each is followed by one binary64 rounding (`Frac.fl`); the int
operands and the rate literals are exactly representable, so the
true-division rounds the exact quotient once, as `int.__truediv__`
does. -/
def calculate_cost (model_tier : ModelTier)
    (input_tokens output_tokens : Nat) : ℚ :=
  let costs := TOKEN_COSTS model_tier
  let input_cost := Frac.fl (Frac.mul (Frac.fl ⟨input_tokens, 1000000⟩)
    (Frac.ofRat costs.input))
  let output_cost := Frac.fl (Frac.mul (Frac.fl ⟨output_tokens, 1000000⟩)
    (Frac.ofRat costs.output))
  (Frac.fl (Frac.add input_cost output_cost)).toRat

/-- The exact-arithmetic reading of the same formula, over rationals
with no rounding: the idealized "pure linear function" the spec
describes, kept under its own name to compare with the float-faithful
`calculate_cost` above. -/
def calculate_cost_exact (model_tier : ModelTier)
    (input_tokens output_tokens : Nat) : ℚ :=
  (input_tokens : ℚ) / 1000000 * (TOKEN_COSTS model_tier).input +
    (output_tokens : ℚ) / 1000000 * (TOKEN_COSTS model_tier).output

/-- C9 counterexample: with the haiku rates, the cost of (0, 1) plus
the cost of (1, 11) differs from the cost of (1, 12): the three
values are the exact doubles Python computes (1.2499999999999999e-06,
1.3999999999999998e-05 and 1.525e-05), the sum of the first two is
exactly representable (so the float addition Python performs in the
comparison introduces no further rounding and equals the rational sum
below), and it is the double one ulp under the third value.  Exact
additivity therefore fails on the code. -/
theorem calculate_cost_float_counterexample :
    calculate_cost ModelTier.haiku 0 1 = mkRat 368934881474191 295147905179352825856 ∧
      calculate_cost ModelTier.haiku 1 11 = mkRat 4132070672510939 295147905179352825856 ∧
      calculate_cost ModelTier.haiku 1 12 = mkRat 9002011107970261 590295810358705651712 ∧
      calculate_cost ModelTier.haiku 0 1 + calculate_cost ModelTier.haiku 1 11 ≠
        calculate_cost ModelTier.haiku 1 12 := by
  have h1 : calculate_cost ModelTier.haiku 0 1 =
      mkRat 368934881474191 295147905179352825856 := by decide
  have h2 : calculate_cost ModelTier.haiku 1 11 =
      mkRat 4132070672510939 295147905179352825856 := by decide
  have h3 : calculate_cost ModelTier.haiku 1 12 =
      mkRat 9002011107970261 590295810358705651712 := by decide
  refine ⟨h1, h2, h3, ?_⟩
  rw [h1, h2, h3, Rat.mkRat_eq_div 368934881474191 295147905179352825856,
    Rat.mkRat_eq_div 4132070672510939 295147905179352825856,
    Rat.mkRat_eq_div 9002011107970261 590295810358705651712]
  norm_num

/-- C9 amended: the additivity identity
`cost tier a b + cost tier c d = cost tier (a + c) (b + d)` holds of
the exact-arithmetic reading of the cost formula
(`calculate_cost_exact`), for every tier and all token counts; the
float computation in the source violates exact additivity through
rounding, as `calculate_cost_float_counterexample` shows at haiku
(0, 1) + (1, 11) against (1, 12). -/
theorem calculate_cost_exact_additive (tier : ModelTier) (a b c d : Nat) :
    calculate_cost_exact tier a b + calculate_cost_exact tier c d =
      calculate_cost_exact tier (a + c) (b + d) := by
  unfold calculate_cost_exact
  push_cast
  ring

/-- A row of the `token_usage` table (`record_usage` insert). -/
structure UsageRecord where
  workflow_run_id : String
  task_id : String
  agent_type : String
  model : String
  input_tokens : Nat
  output_tokens : Nat
  cost_usd : ℚ
  deriving DecidableEq

/-- The dictionary returned by `get_workflow_usage`. -/
structure UsageSummary where
  total_input : Nat
  total_output : Nat
  total_tokens : Nat
  total_cost : ℚ
  deriving DecidableEq

/-- `get_workflow_usage` (`context/budget.py`): column sums of the
workflow's usage rows; the SQL `SUM` of no rows is `NULL`, mapped to
zero by the `or 0` in the source, which coincides with the empty
list sum here. -/
def get_workflow_usage (records : List UsageRecord)
    (workflow_run_id : String) : UsageSummary :=
  let rows := records.filter fun r => decide (r.workflow_run_id = workflow_run_id)
  { total_input := (rows.map (fun r => r.input_tokens)).sum
    total_output := (rows.map (fun r => r.output_tokens)).sum
    total_tokens := (rows.map (fun r => r.input_tokens)).sum +
      (rows.map (fun r => r.output_tokens)).sum
    total_cost := (rows.map (fun r => r.cost_usd)).sum }

def DEFAULT_WORKFLOW_BUDGET : Nat := 500000

/-- `check_budget` (`context/budget.py`): strict comparison of the
total token count against the budget, and the used fraction (zero
when the budget is non-positive). -/
def check_budget (records : List UsageRecord) (workflow_run_id : String)
    (budget : Nat) : Bool × ℚ :=
  let total := (get_workflow_usage records workflow_run_id).total_tokens
  let percent : ℚ := if 0 < budget then (total : ℚ) / (budget : ℚ) else 0
  (decide (total < budget), percent)

/-- A usage row of exactly `n` input tokens for workflow `"w"`. -/
def usageRow (n : Nat) : UsageRecord :=
  { workflow_run_id := "w", task_id := "t", agent_type := "PM",
    model := "sonnet", input_tokens := n, output_tokens := 0,
    cost_usd := 0 }

/-- C8: for a positive budget, `check_budget` reports within-budget
exactly when the recorded total is strictly below the budget, and the
fraction is total over budget; at budget 1000 this gives
`(false, 1)` after 1000 recorded tokens and `(true, 999/1000)` after
999. -/
theorem check_budget_spec (records : List UsageRecord) (wf : String)
    (budget : Nat) (h : 0 < budget) :
    (((check_budget records wf budget).1 = true ↔
        (get_workflow_usage records wf).total_tokens < budget) ∧
      (check_budget records wf budget).2 =
        ((get_workflow_usage records wf).total_tokens : ℚ) / (budget : ℚ)) ∧
      check_budget [usageRow 1000] "w" 1000 = (false, 1) ∧
      check_budget [usageRow 999] "w" 1000 = (true, 999 / 1000) := by
  refine ⟨⟨?_, ?_⟩, ?_, ?_⟩
  · unfold check_budget
    simp
  · unfold check_budget
    simp [h]
  · have h1 : (get_workflow_usage [usageRow 1000] "w").total_tokens = 1000 := by
      decide
    simp only [check_budget, h1]
    norm_num
  · have h1 : (get_workflow_usage [usageRow 999] "w").total_tokens = 999 := by
      decide
    simp only [check_budget, h1]
    norm_num

theorem check_budget_spec_witness :
    (((check_budget [usageRow 1000] "w" 1000).1 = true ↔
        (get_workflow_usage [usageRow 1000] "w").total_tokens < 1000) ∧
      (check_budget [usageRow 1000] "w" 1000).2 =
        ((get_workflow_usage [usageRow 1000] "w").total_tokens : ℚ) /
          (1000 : ℚ)) ∧
      check_budget [usageRow 1000] "w" 1000 = (false, 1) ∧
      check_budget [usageRow 999] "w" 1000 = (true, 999 / 1000) :=
  check_budget_spec [usageRow 1000] "w" 1000 (by omega)

/-! ## Engine state (`storage/workflows.py`, `orchestration/engine.py`)

System state bundles the database tables (`workflow_runs`,
`workflow_stages`, `tasks`, `task_dependencies`), the emitted-event
log (the engine's `_emit`, with handlers modelled as observers of the
log) and the Task Executor invocation log (`cli.execute` calls made
by `execute_agent`).  The Task Executor collaborator is an oracle
from task id to outcome. -/

/-- A row of the `workflow_runs` table (fields the engine reads). -/
structure Workflow where
  id : String
  workflow_type : String
  description : String
  status : WorkflowStatus
  error_message : Option String
  deriving DecidableEq

/-- A row of the `workflow_stages` table. -/
structure StageRec where
  id : String
  workflow_run_id : String
  stage_name : String
  stage_order : Nat
  parallel : Bool
  status : StageStatus
  deriving DecidableEq

/-- One emitted event: name plus the payload fields every claim
reads (`workflow_id`, and `stage_id` for stage events). -/
structure Event where
  name : String
  workflow_id : String
  stage_id : Option String
  deriving DecidableEq

/-- Outcome of one Task Executor invocation for a task: the parsed
response reports success, reports failure, or the call raises. -/
inductive AgentOutcome where
  | succeed
  | fail
  | raise
  deriving DecidableEq

/-- The Task Executor collaborator, keyed by task id. -/
def Oracle : Type := String → AgentOutcome

/-- Whole-system state. -/
structure Sys where
  workflows : List Workflow
  stages : List StageRec
  tasks : List Task
  deps : List TaskDependency
  events : List Event
  calls : List String
  deriving DecidableEq

/-- `get_workflow` (`storage/workflows.py`): `SELECT * FROM
workflow_runs WHERE id = ?`. -/
def get_workflow (s : Sys) (workflow_id : String) : Option Workflow :=
  s.workflows.find? fun w => decide (w.id = workflow_id)

/-- `create_workflow` (`storage/workflows.py`): insert a new run with
status pending (the generated id is passed in; its format is opaque
to the engine). -/
def create_workflow (s : Sys) (workflow_id workflow_type description : String) :
    Sys :=
  { s with workflows := s.workflows ++
      [⟨workflow_id, workflow_type, description, WorkflowStatus.pending, none⟩] }

/-- `update_workflow_status` (`storage/workflows.py`): set the status
of every row with the id; the error message column is written only in
the branch that is neither RUNNING nor COMPLETED and has a message
(the timestamp columns of the other branches are not modelled). -/
def workflow_row_update (status : WorkflowStatus)
    (error_message : Option String) (w : Workflow) : Workflow :=
  { w with
    status := status
    error_message :=
      if status = WorkflowStatus.running ∨
          status = WorkflowStatus.completed then w.error_message
      else match error_message with
        | some m => some m
        | none => w.error_message }

def update_workflow_status (s : Sys) (workflow_id : String)
    (status : WorkflowStatus) (error_message : Option String) : Sys :=
  { s with workflows := s.workflows.map fun w =>
      if w.id = workflow_id then workflow_row_update status error_message w
      else w }

/-- `get_workflow_stages` (`storage/workflows.py`): the workflow's
stage rows `ORDER BY stage_order` (a stable sort of the filtered
rows). -/
def get_workflow_stages (s : Sys) (workflow_run_id : String) : List StageRec :=
  List.insertionSort (fun a b => a.stage_order ≤ b.stage_order)
    (s.stages.filter fun st => decide (st.workflow_run_id = workflow_run_id))

/-- `update_stage_status` (`storage/workflows.py`). -/
def update_stage_status (s : Sys) (stage_id : String) (status : StageStatus) :
    Sys :=
  { s with stages := s.stages.map fun st =>
      if st.id = stage_id then { st with status := status } else st }

/-- `update_task_status` (`storage/tasks.py`); the task error message
column is not modelled (no claim reads it). -/
def update_task_status (s : Sys) (task_id : String) (status : TaskStatus) :
    Sys :=
  { s with tasks := s.tasks.map fun t =>
      if t.id = task_id then { t with status := status } else t }

/-- The engine's `_emit`: append the event to the log (handlers are
modelled as readers of this log). -/
def emit (s : Sys) (event : String) (workflow_id : String)
    (stage_id : Option String) : Sys :=
  { s with events := s.events ++ [⟨event, workflow_id, stage_id⟩] }

/-- `get_stage_tasks(stage_id, status=pending)` (`storage/tasks.py`)
as used by `execute_stage`; rows keep table (creation) order. -/
def get_stage_tasks (s : Sys) (stage_id : String) : List Task :=
  s.tasks.filter fun t =>
    decide (t.stage_id = some stage_id ∧ t.status = TaskStatus.pending)

/-- The task-selection step of `execute_stage`
(`orchestration/stage_executor.py`): the stage's pending tasks, or —
when that list is empty — the workflow-wide runnable tasks filtered
to this stage. -/
def select_stage_tasks (s : Sys) (workflow_id stage_id : String) : List Task :=
  let stage_tasks := get_stage_tasks s stage_id
  if stage_tasks.isEmpty then
    (get_runnable_tasks s.tasks s.deps workflow_id).filter fun t =>
      decide (t.stage_id = some stage_id)
  else stage_tasks

/-- `execute_agent` (`agents/executor.py`): mark the task running,
invoke the Task Executor (logged in `calls`), then mark the task
completed or failed according to the parsed response; an exception
from the invocation marks the task failed and re-raises (`Except
.error`).  Prompt loading, context persistence and usage recording
are bookkeeping with no bearing on any claim and are not modelled. -/
def execute_agent (o : Oracle) (s : Sys) (task_id : String) :
    Sys × Except Unit Bool :=
  let s1 := update_task_status s task_id TaskStatus.running
  let s2 := { s1 with calls := s1.calls ++ [task_id] }
  match o task_id with
  | AgentOutcome.succeed =>
      (update_task_status s2 task_id TaskStatus.completed, Except.ok true)
  | AgentOutcome.fail =>
      (update_task_status s2 task_id TaskStatus.failed, Except.ok false)
  | AgentOutcome.raise =>
      (update_task_status s2 task_id TaskStatus.failed, Except.error ())

/-- `execute_task` (`orchestration/stage_executor.py`): run the agent
and return the parsed success flag; any exception is caught and
converted to `false` rather than propagated (the `try/except` around
`execute_agent`). -/
def execute_task (o : Oracle) (s : Sys) (t : Task) : Sys × Bool :=
  match execute_agent o s t.id with
  | (s', Except.ok b) => (s', b)
  | (s', Except.error _) => (s', false)

/-- The sequential branch of `execute_stage`: run tasks in order and
stop at the first failure. -/
def run_tasks_sequential (o : Oracle) (s : Sys) : List Task → Sys × Bool
  | [] => (s, true)
  | t :: ts =>
    match execute_task o s t with
    | (s', true) => run_tasks_sequential o s' ts
    | (s', false) => (s', false)

/-- The parallel branch of `execute_stage`: `asyncio.gather` over
`execute_task`, collecting every result (`return_exceptions=True`;
`execute_task` itself never raises, having converted executor
exceptions to `false`). -/
def run_tasks_parallel (o : Oracle) (s : Sys) : List Task → Sys × List Bool
  | [] => (s, [])
  | t :: ts =>
    let r := execute_task o s t
    let rest := run_tasks_parallel o r.1 ts
    (rest.1, r.2 :: rest.2)

/-- `execute_stage` (`orchestration/stage_executor.py`): select the
stage's tasks, succeed trivially when none, otherwise run them in
parallel (success iff all results are true) or sequentially. -/
def execute_stage (o : Oracle) (s : Sys) (workflow_id stage_id : String)
    (parallel : Bool) : Sys × Bool :=
  let stage_tasks := select_stage_tasks s workflow_id stage_id
  if stage_tasks.isEmpty then (s, true)
  else if parallel then
    let r := run_tasks_parallel o s stage_tasks
    (r.1, r.2.all id)
  else
    run_tasks_sequential o s stage_tasks

/-- Errors raised by the engine's operations. -/
inductive EngineError where
  | workflowNotFound
  | cannotResume (status : WorkflowStatus)
  deriving DecidableEq

namespace WorkflowEngine

/-- The stage loop of `WorkflowEngine.execute`: skip completed stages,
otherwise mark running, emit `stage_started`, delegate to
`execute_stage`; on success mark completed and continue, on failure
mark the stage and the run failed, emit the failure events and stop.
After the loop, mark the run completed.  Nothing inside the loop
raises in this model, so the `except` re-raise branch of the source
is unreachable here. -/
def execute_stages_loop (o : Oracle) (workflow_id : String) :
    Sys → List StageRec → Sys
  | s, [] =>
    emit (update_workflow_status s workflow_id WorkflowStatus.completed none)
      "workflow_completed" workflow_id none
  | s, stage :: rest =>
    if stage.status = StageStatus.completed then
      execute_stages_loop o workflow_id s rest
    else
      let s2 := emit (update_stage_status s stage.id StageStatus.running)
        "stage_started" workflow_id (some stage.id)
      let r := execute_stage o s2 workflow_id stage.id stage.parallel
      if r.2 then
        execute_stages_loop o workflow_id
          (emit (update_stage_status r.1 stage.id StageStatus.completed)
            "stage_completed" workflow_id (some stage.id)) rest
      else
        emit (update_workflow_status
            (emit (update_stage_status r.1 stage.id StageStatus.failed)
              "stage_failed" workflow_id (some stage.id))
            workflow_id WorkflowStatus.failed
            (some ("Stage " ++ stage.stage_name ++ " failed")))
          "workflow_failed" workflow_id none

/-- `WorkflowEngine.execute`: raise `WorkflowNotFoundError` for an
unknown id, otherwise set the run running, emit `workflow_started`
and drive the stage loop over the ordered stages. -/
def execute (o : Oracle) (s : Sys) (workflow_id : String) :
    Except EngineError Sys :=
  match get_workflow s workflow_id with
  | none => Except.error EngineError.workflowNotFound
  | some _ =>
    let s2 := emit
      (update_workflow_status s workflow_id WorkflowStatus.running none)
      "workflow_started" workflow_id none
    Except.ok (execute_stages_loop o workflow_id s2
      (get_workflow_stages s2 workflow_id))

/-- `WorkflowEngine.pause`: unconditionally store paused and emit
`workflow_paused` (no status check, no lookup). -/
def pause (s : Sys) (workflow_id : String) : Sys :=
  emit (update_workflow_status s workflow_id WorkflowStatus.paused none)
    "workflow_paused" workflow_id none

/-- `WorkflowEngine.cancel`: unconditionally store cancelled and emit
`workflow_cancelled`. -/
def cancel (s : Sys) (workflow_id : String) : Sys :=
  emit (update_workflow_status s workflow_id WorkflowStatus.cancelled none)
    "workflow_cancelled" workflow_id none

/-- `WorkflowEngine.resume`: unknown id raises; a status other than
paused or failed raises `ValueError`; otherwise re-run `execute`. -/
def resume (o : Oracle) (s : Sys) (workflow_id : String) :
    Except EngineError Sys :=
  match get_workflow s workflow_id with
  | none => Except.error EngineError.workflowNotFound
  | some w =>
    if w.status = WorkflowStatus.paused ∨ w.status = WorkflowStatus.failed then
      execute o s workflow_id
    else Except.error (EngineError.cannotResume w.status)

end WorkflowEngine

/-- The stored status of a workflow, as a lookup observer. -/
def workflowStatus (s : Sys) (workflow_id : String) : Option WorkflowStatus :=
  (get_workflow s workflow_id).map fun w => w.status

/-- The stored error message of a workflow. -/
def workflowError (s : Sys) (workflow_id : String) : Option (Option String) :=
  (get_workflow s workflow_id).map fun w => w.error_message

/-- The stored status of a stage. -/
def stageStatus (s : Sys) (stage_id : String) : Option StageStatus :=
  (s.stages.find? fun st => decide (st.id = stage_id)).map fun st => st.status

/-- The stored status of a task. -/
def taskStatus (s : Sys) (task_id : String) : Option TaskStatus :=
  (s.tasks.find? fun t => decide (t.id = task_id)).map fun t => t.status

/-- The `stage_id` payloads of the `stage_started` events beyond the
first `base` events — which stages an execution actually started. -/
def started_stage_ids (base : Nat) (s : Sys) : List (Option String) :=
  ((s.events.drop base).filter fun e => decide (e.name = "stage_started")).map
    fun e => e.stage_id

/-! ## Supporting lemmas about the state operations -/

/-- A keyed conditional update commutes with a keyed lookup. -/
theorem find?_map_key {α : Type} (key : α → String) (f : α → α)
    (hkey : ∀ a, key (f a) = key a) (k k' : String) :
    ∀ l : List α,
      ((l.map fun a => if key a = k then f a else a).find?
          fun a => decide (key a = k')) =
        (l.find? fun a => decide (key a = k')).map
          fun a => if key a = k then f a else a := by
  have hif : ∀ a, key (if key a = k then f a else a) = key a := by
    intro a
    by_cases h2 : key a = k
    · rw [if_pos h2, hkey]
    · rw [if_neg h2]
  intro l
  induction l with
  | nil => rfl
  | cons a l ih =>
    simp only [List.map_cons, List.find?, hif]
    cases hd : decide (key a = k') with
    | true => simp
    | false => simpa using ih

theorem emit_events (s : Sys) (e w : String) (sid : Option String) :
    (emit s e w sid).events = s.events ++ [⟨e, w, sid⟩] := rfl

/-- Task rows keyed by id and stage link; engine operations preserve
this projection (statuses are the only task mutation). -/
def task_keys (s : Sys) : List (String × Option String) :=
  s.tasks.map fun t => (t.id, t.stage_id)

theorem task_keys_update_task_status (s : Sys) (tid : String)
    (st : TaskStatus) :
    task_keys (update_task_status s tid st) = task_keys s := by
  unfold task_keys update_task_status
  rw [List.map_map]
  congr 1
  funext t
  by_cases h : t.id = tid <;> simp [h]

theorem taskStatus_update_task_status_self (s : Sys) (tid : String)
    (st : TaskStatus) (h : ∃ t ∈ s.tasks, t.id = tid) :
    taskStatus (update_task_status s tid st) tid = some st := by
  unfold taskStatus update_task_status
  rw [find?_map_key Task.id (fun t => { t with status := st }) (fun _ => rfl)]
  obtain ⟨t, ht, hid⟩ := h
  have hsome : ((s.tasks.find? fun t => decide (t.id = tid)).isSome) := by
    rw [List.find?_isSome]
    exact ⟨t, ht, by simp [hid]⟩
  obtain ⟨u, hu⟩ := Option.isSome_iff_exists.mp hsome
  have huid : u.id = tid := by simpa using List.find?_some hu
  rw [hu]
  simp [huid]

theorem taskStatus_update_task_status_other (s : Sys) (tid tid' : String)
    (st : TaskStatus) (h : tid' ≠ tid) :
    taskStatus (update_task_status s tid st) tid' = taskStatus s tid' := by
  unfold taskStatus update_task_status
  rw [find?_map_key Task.id (fun t => { t with status := st }) (fun _ => rfl)]
  cases hu : s.tasks.find? fun t => decide (t.id = tid') with
  | none => rfl
  | some u =>
    have huid : u.id = tid' := by simpa using List.find?_some hu
    simp [huid, h]

theorem stageStatus_update_stage_status_self (s : Sys) (sid : String)
    (st : StageStatus) (h : ∃ u ∈ s.stages, u.id = sid) :
    stageStatus (update_stage_status s sid st) sid = some st := by
  unfold stageStatus update_stage_status
  rw [find?_map_key StageRec.id (fun u => { u with status := st })
    (fun _ => rfl)]
  obtain ⟨u, hu, hid⟩ := h
  have hsome : ((s.stages.find? fun u => decide (u.id = sid)).isSome) := by
    rw [List.find?_isSome]
    exact ⟨u, hu, by simp [hid]⟩
  obtain ⟨v, hv⟩ := Option.isSome_iff_exists.mp hsome
  have hvid : v.id = sid := by simpa using List.find?_some hv
  rw [hv]
  simp [hvid]

theorem stageStatus_update_stage_status_other (s : Sys) (sid sid' : String)
    (st : StageStatus) (h : sid' ≠ sid) :
    stageStatus (update_stage_status s sid st) sid' = stageStatus s sid' := by
  unfold stageStatus update_stage_status
  rw [find?_map_key StageRec.id (fun u => { u with status := st })
    (fun _ => rfl)]
  cases hv : s.stages.find? fun u => decide (u.id = sid') with
  | none => rfl
  | some v =>
    have hvid : v.id = sid' := by simpa using List.find?_some hv
    simp [hvid, h]

theorem workflowStatus_update_workflow_status_self (s : Sys) (k : String)
    (st : WorkflowStatus) (err : Option String)
    (h : ∃ w ∈ s.workflows, w.id = k) :
    workflowStatus (update_workflow_status s k st err) k = some st := by
  unfold workflowStatus get_workflow update_workflow_status
  rw [find?_map_key Workflow.id (workflow_row_update st err) (fun _ => rfl)]
  obtain ⟨w, hw, hid⟩ := h
  have hsome : ((s.workflows.find? fun w => decide (w.id = k)).isSome) := by
    rw [List.find?_isSome]
    exact ⟨w, hw, by simp [hid]⟩
  obtain ⟨v, hv⟩ := Option.isSome_iff_exists.mp hsome
  have hvid : v.id = k := by simpa using List.find?_some hv
  rw [hv]
  simp [hvid, workflow_row_update]

theorem workflowError_update_workflow_status_failed (s : Sys) (k : String)
    (msg : String) (h : ∃ w ∈ s.workflows, w.id = k) :
    workflowError (update_workflow_status s k WorkflowStatus.failed
      (some msg)) k = some (some msg) := by
  unfold workflowError get_workflow update_workflow_status
  rw [find?_map_key Workflow.id
    (workflow_row_update WorkflowStatus.failed (some msg)) (fun _ => rfl)]
  obtain ⟨w, hw, hid⟩ := h
  have hsome : ((s.workflows.find? fun w => decide (w.id = k)).isSome) := by
    rw [List.find?_isSome]
    exact ⟨w, hw, by simp [hid]⟩
  obtain ⟨v, hv⟩ := Option.isSome_iff_exists.mp hsome
  have hvid : v.id = k := by simpa using List.find?_some hv
  rw [hv]
  simp [hvid, workflow_row_update]

theorem tasks_map_id_update_task_status (s : Sys) (tid : String)
    (st : TaskStatus) :
    (update_task_status s tid st).tasks.map Task.id = s.tasks.map Task.id := by
  unfold update_task_status
  rw [List.map_map]
  congr 1
  funext t
  by_cases h : t.id = tid <;> simp [h]

theorem exists_task_id_transfer {s' s : Sys}
    (h : s'.tasks.map Task.id = s.tasks.map Task.id) {tid : String} :
    (∃ t ∈ s.tasks, t.id = tid) → ∃ t ∈ s'.tasks, t.id = tid := by
  rintro ⟨t, ht, hid⟩
  have hmem : tid ∈ s'.tasks.map Task.id := by
    rw [h]
    exact hid ▸ List.mem_map_of_mem Task.id ht
  obtain ⟨u, hu, hu2⟩ := List.mem_map.mp hmem
  exact ⟨u, hu, hu2⟩

theorem tasks_map_id_of_task_keys {s' s : Sys}
    (h : task_keys s' = task_keys s) :
    s'.tasks.map Task.id = s.tasks.map Task.id := by
  have h2 := congrArg (List.map Prod.fst) h
  simpa [task_keys, List.map_map, Function.comp_def] using h2

/-- The state after `execute_task` on task id `tid` whose terminal
status is `st`: mark running, log the Task Executor call, mark `st`. -/
def task_exec_state (s : Sys) (tid : String) (st : TaskStatus) : Sys :=
  update_task_status
    { update_task_status s tid TaskStatus.running with
      calls := (update_task_status s tid TaskStatus.running).calls ++ [tid] }
    tid st

theorem task_exec_state_calls (s : Sys) (tid : String) (st : TaskStatus) :
    (task_exec_state s tid st).calls = s.calls ++ [tid] := rfl

theorem task_exec_state_stages (s : Sys) (tid : String) (st : TaskStatus) :
    (task_exec_state s tid st).stages = s.stages := rfl

theorem task_exec_state_workflows (s : Sys) (tid : String) (st : TaskStatus) :
    (task_exec_state s tid st).workflows = s.workflows := rfl

theorem task_exec_state_events (s : Sys) (tid : String) (st : TaskStatus) :
    (task_exec_state s tid st).events = s.events := rfl

theorem task_exec_state_deps (s : Sys) (tid : String) (st : TaskStatus) :
    (task_exec_state s tid st).deps = s.deps := rfl

theorem task_keys_task_exec_state (s : Sys) (tid : String) (st : TaskStatus) :
    task_keys (task_exec_state s tid st) = task_keys s := by
  unfold task_exec_state
  rw [task_keys_update_task_status]
  exact task_keys_update_task_status s tid TaskStatus.running

theorem tasks_map_id_task_exec_state (s : Sys) (tid : String)
    (st : TaskStatus) :
    (task_exec_state s tid st).tasks.map Task.id = s.tasks.map Task.id :=
  tasks_map_id_of_task_keys (task_keys_task_exec_state s tid st)

theorem taskStatus_task_exec_state_self (s : Sys) (tid : String)
    (st : TaskStatus) (h : ∃ t ∈ s.tasks, t.id = tid) :
    taskStatus (task_exec_state s tid st) tid = some st := by
  unfold task_exec_state
  apply taskStatus_update_task_status_self
  exact exists_task_id_transfer
    (tasks_map_id_update_task_status s tid TaskStatus.running) h

theorem taskStatus_task_exec_state_other (s : Sys) (tid tid' : String)
    (st : TaskStatus) (h : tid' ≠ tid) :
    taskStatus (task_exec_state s tid st) tid' = taskStatus s tid' := by
  unfold task_exec_state
  rw [taskStatus_update_task_status_other _ _ _ _ h]
  exact taskStatus_update_task_status_other s tid tid' TaskStatus.running h

/-- `execute_task` in closed form: the state comes from
`task_exec_state` and the returned flag is true exactly for a
successful Task Executor outcome (a raised exception is converted to
`false`, and the task is still marked failed). -/
theorem execute_task_eq (o : Oracle) (s : Sys) (t : Task) :
    execute_task o s t =
      (task_exec_state s t.id
        (if o t.id = AgentOutcome.succeed then TaskStatus.completed
          else TaskStatus.failed),
        decide (o t.id = AgentOutcome.succeed)) := by
  cases h : o t.id <;>
    simp [execute_task, execute_agent, task_exec_state, h]

theorem run_tasks_parallel_spec (o : Oracle) :
    ∀ (ts : List Task) (s : Sys),
      (run_tasks_parallel o s ts).2 =
          ts.map (fun t => decide (o t.id = AgentOutcome.succeed)) ∧
        (run_tasks_parallel o s ts).1.calls = s.calls ++ ts.map Task.id ∧
        (run_tasks_parallel o s ts).1.stages = s.stages ∧
        (run_tasks_parallel o s ts).1.workflows = s.workflows ∧
        (run_tasks_parallel o s ts).1.events = s.events ∧
        (run_tasks_parallel o s ts).1.deps = s.deps ∧
        task_keys (run_tasks_parallel o s ts).1 = task_keys s := by
  intro ts
  induction ts with
  | nil => intro s; simp [run_tasks_parallel, task_keys]
  | cons t ts ih =>
    intro s
    simp only [run_tasks_parallel, execute_task_eq]
    obtain ⟨h1, h2, h3, h4, h5, h6, h7⟩ := ih (task_exec_state s t.id
      (if o t.id = AgentOutcome.succeed then TaskStatus.completed
        else TaskStatus.failed))
    refine ⟨by simp [h1], ?_, ?_, ?_, ?_, ?_, ?_⟩
    · rw [h2, task_exec_state_calls]
      simp
    · rw [h3, task_exec_state_stages]
    · rw [h4, task_exec_state_workflows]
    · rw [h5, task_exec_state_events]
    · rw [h6, task_exec_state_deps]
    · rw [h7, task_keys_task_exec_state]

theorem run_tasks_parallel_status_other (o : Oracle) :
    ∀ (ts : List Task) (s : Sys) (tid : String),
      tid ∉ ts.map Task.id →
      taskStatus (run_tasks_parallel o s ts).1 tid = taskStatus s tid := by
  intro ts
  induction ts with
  | nil => intro s tid _; rfl
  | cons t ts ih =>
    intro s tid htid
    simp only [List.map_cons, List.mem_cons, not_or] at htid
    simp only [run_tasks_parallel, execute_task_eq]
    rw [ih _ tid htid.2]
    exact taskStatus_task_exec_state_other s t.id tid _ htid.1

theorem run_tasks_parallel_status (o : Oracle) :
    ∀ (ts : List Task) (s : Sys),
      (ts.map Task.id).Nodup →
      (∀ t ∈ ts, ∃ u ∈ s.tasks, u.id = t.id) →
      ∀ t ∈ ts, taskStatus (run_tasks_parallel o s ts).1 t.id =
        some (if o t.id = AgentOutcome.succeed then TaskStatus.completed
          else TaskStatus.failed) := by
  intro ts
  induction ts with
  | nil => intro s _ _ t ht; exact absurd ht (List.not_mem_nil t)
  | cons u ts ih =>
    intro s hnd hpres t ht
    simp only [List.map_cons, List.nodup_cons] at hnd
    simp only [run_tasks_parallel, execute_task_eq]
    rcases List.mem_cons.mp ht with rfl | ht2
    · rw [run_tasks_parallel_status_other o ts _ t.id hnd.1]
      exact taskStatus_task_exec_state_self s t.id _
        (hpres t (List.mem_cons_self t ts))
    · refine ih _ hnd.2 ?_ t ht2
      intro v hv
      exact exists_task_id_transfer (tasks_map_id_task_exec_state s u.id _)
        (hpres v (List.mem_cons_of_mem u hv))

theorem run_tasks_sequential_fields (o : Oracle) :
    ∀ (ts : List Task) (s : Sys),
      (run_tasks_sequential o s ts).1.stages = s.stages ∧
        (run_tasks_sequential o s ts).1.workflows = s.workflows ∧
        (run_tasks_sequential o s ts).1.events = s.events ∧
        (run_tasks_sequential o s ts).1.deps = s.deps ∧
        task_keys (run_tasks_sequential o s ts).1 = task_keys s ∧
        ∃ ext, (run_tasks_sequential o s ts).1.calls = s.calls ++ ext ∧
          ∀ tid ∈ ext, ∃ t ∈ ts, t.id = tid := by
  intro ts
  induction ts with
  | nil =>
    intro s
    refine ⟨rfl, rfl, rfl, rfl, rfl, [], by simp [run_tasks_sequential], ?_⟩
    intro tid htid
    exact absurd htid (List.not_mem_nil tid)
  | cons t ts ih =>
    intro s
    simp only [run_tasks_sequential, execute_task_eq]
    cases hd : decide (o t.id = AgentOutcome.succeed) with
    | true =>
      simp only
      obtain ⟨h1, h2, h3, h4, h5, ext, hext, hsound⟩ := ih (task_exec_state
        s t.id (if o t.id = AgentOutcome.succeed then TaskStatus.completed
          else TaskStatus.failed))
      refine ⟨by rw [h1, task_exec_state_stages],
        by rw [h2, task_exec_state_workflows],
        by rw [h3, task_exec_state_events],
        by rw [h4, task_exec_state_deps],
        by rw [h5, task_keys_task_exec_state],
        t.id :: ext, ?_, ?_⟩
      · rw [hext, task_exec_state_calls]
        simp
      · intro tid htid
        rcases List.mem_cons.mp htid with rfl | htid2
        · exact ⟨t, List.mem_cons_self t ts, rfl⟩
        · obtain ⟨u, hu, hu2⟩ := hsound tid htid2
          exact ⟨u, List.mem_cons_of_mem t hu, hu2⟩
    | false =>
      simp only
      refine ⟨task_exec_state_stages .., task_exec_state_workflows ..,
        task_exec_state_events .., task_exec_state_deps ..,
        task_keys_task_exec_state .., [t.id], task_exec_state_calls .., ?_⟩
      intro tid htid
      rcases List.mem_singleton.mp htid with rfl
      exact ⟨t, List.mem_cons_self t ts, rfl⟩

theorem run_tasks_sequential_all (o : Oracle) :
    ∀ (ts : List Task) (s : Sys),
      (∀ t ∈ ts, o t.id = AgentOutcome.succeed) →
      (run_tasks_sequential o s ts).2 = true ∧
        (run_tasks_sequential o s ts).1.calls = s.calls ++ ts.map Task.id := by
  intro ts
  induction ts with
  | nil => intro s _; simp [run_tasks_sequential]
  | cons t ts ih =>
    intro s hall
    have hsucc : o t.id = AgentOutcome.succeed :=
      hall t (List.mem_cons_self t ts)
    have hd : decide (o t.id = AgentOutcome.succeed) = true := by simp [hsucc]
    simp only [run_tasks_sequential, execute_task_eq, hd, if_pos hsucc]
    obtain ⟨h1, h2⟩ := ih (task_exec_state s t.id TaskStatus.completed)
      (fun u hu => hall u (List.mem_cons_of_mem t hu))
    refine ⟨h1, ?_⟩
    rw [task_exec_state_calls] at h2
    simpa [List.append_assoc] using h2

theorem run_tasks_sequential_stop (o : Oracle) :
    ∀ (pre : List Task) (t : Task) (post : List Task) (s : Sys),
      (∀ u ∈ pre, o u.id = AgentOutcome.succeed) →
      o t.id ≠ AgentOutcome.succeed →
      (run_tasks_sequential o s (pre ++ t :: post)).2 = false ∧
        (run_tasks_sequential o s (pre ++ t :: post)).1.calls =
          s.calls ++ pre.map Task.id ++ [t.id] := by
  intro pre
  induction pre with
  | nil =>
    intro t post s _ hfail
    have hd : decide (o t.id = AgentOutcome.succeed) = false := by
      simp [hfail]
    have hif : (if o t.id = AgentOutcome.succeed then TaskStatus.completed
        else TaskStatus.failed) = TaskStatus.failed := if_neg hfail
    rw [List.nil_append]
    simp only [run_tasks_sequential, execute_task_eq, hd, hif]
    refine ⟨trivial, ?_⟩
    rw [task_exec_state_calls]
    simp
  | cons u pre ih =>
    intro t post s hpre hfail
    have hsucc : o u.id = AgentOutcome.succeed :=
      hpre u (List.mem_cons_self u pre)
    have hd : decide (o u.id = AgentOutcome.succeed) = true := by simp [hsucc]
    simp only [List.cons_append, run_tasks_sequential, execute_task_eq, hd,
      if_pos hsucc]
    obtain ⟨h1, h2⟩ := ih t post
      (task_exec_state s u.id TaskStatus.completed)
      (fun v hv => hpre v (List.mem_cons_of_mem u hv)) hfail
    refine ⟨h1, ?_⟩
    rw [task_exec_state_calls] at h2
    simpa [List.append_assoc] using h2

theorem select_stage_tasks_eq (s : Sys) (wf sid : String) :
    select_stage_tasks s wf sid =
      if (get_stage_tasks s sid).isEmpty then
        (get_runnable_tasks s.tasks s.deps wf).filter fun t =>
          decide (t.stage_id = some sid)
      else get_stage_tasks s sid := rfl

theorem select_stage_tasks_sublist (s : Sys) (wf sid : String) :
    List.Sublist (select_stage_tasks s wf sid) s.tasks := by
  rw [select_stage_tasks_eq]
  by_cases h : (get_stage_tasks s sid).isEmpty = true
  · rw [if_pos h]
    refine List.Sublist.trans (List.filter_sublist _) ?_
    exact List.filter_sublist _
  · rw [if_neg h]
    exact List.filter_sublist _

theorem select_stage_tasks_mem (s : Sys) (wf sid : String) (t : Task)
    (ht : t ∈ select_stage_tasks s wf sid) :
    t ∈ s.tasks ∧ t.stage_id = some sid := by
  rw [select_stage_tasks_eq] at ht
  by_cases h : (get_stage_tasks s sid).isEmpty = true
  · rw [if_pos h] at ht
    rw [List.mem_filter, decide_eq_true_iff] at ht
    refine ⟨?_, ht.2⟩
    have h1 := ht.1
    unfold get_runnable_tasks at h1
    exact (List.mem_filter.mp h1).1
  · rw [if_neg h] at ht
    unfold get_stage_tasks at ht
    rw [List.mem_filter, decide_eq_true_iff] at ht
    exact ⟨ht.1, ht.2.1⟩

theorem select_stage_tasks_nodup (s : Sys) (wf sid : String)
    (h : (s.tasks.map Task.id).Nodup) :
    ((select_stage_tasks s wf sid).map Task.id).Nodup :=
  h.sublist ((select_stage_tasks_sublist s wf sid).map Task.id)

theorem execute_stage_eq (o : Oracle) (s : Sys) (wf sid : String)
    (par : Bool) :
    execute_stage o s wf sid par =
      if (select_stage_tasks s wf sid).isEmpty then (s, true)
      else if par then
        ((run_tasks_parallel o s (select_stage_tasks s wf sid)).1,
          (run_tasks_parallel o s (select_stage_tasks s wf sid)).2.all id)
      else run_tasks_sequential o s (select_stage_tasks s wf sid) := rfl

theorem execute_stage_of_empty (o : Oracle) (s : Sys) (wf sid : String)
    (par : Bool) (h : select_stage_tasks s wf sid = []) :
    execute_stage o s wf sid par = (s, true) := by
  rw [execute_stage_eq, h]
  rfl

theorem execute_stage_of_par (o : Oracle) (s : Sys) (wf sid : String)
    (h : select_stage_tasks s wf sid ≠ []) :
    execute_stage o s wf sid true =
      ((run_tasks_parallel o s (select_stage_tasks s wf sid)).1,
        (run_tasks_parallel o s (select_stage_tasks s wf sid)).2.all id) := by
  rw [execute_stage_eq]
  rw [if_neg (by simpa using h)]
  rw [if_pos rfl]

theorem execute_stage_of_seq (o : Oracle) (s : Sys) (wf sid : String)
    (h : select_stage_tasks s wf sid ≠ []) :
    execute_stage o s wf sid false =
      run_tasks_sequential o s (select_stage_tasks s wf sid) := by
  rw [execute_stage_eq]
  rw [if_neg (by simpa using h)]
  rfl

theorem execute_stage_fields (o : Oracle) (s : Sys) (wf sid : String)
    (par : Bool) :
    (execute_stage o s wf sid par).1.stages = s.stages ∧
      (execute_stage o s wf sid par).1.workflows = s.workflows ∧
      (execute_stage o s wf sid par).1.events = s.events ∧
      (execute_stage o s wf sid par).1.deps = s.deps ∧
      task_keys (execute_stage o s wf sid par).1 = task_keys s ∧
      ∃ ext, (execute_stage o s wf sid par).1.calls = s.calls ++ ext ∧
        ∀ tid ∈ ext, ∃ t ∈ select_stage_tasks s wf sid, t.id = tid := by
  by_cases hsel : select_stage_tasks s wf sid = []
  · rw [execute_stage_of_empty o s wf sid par hsel]
    refine ⟨rfl, rfl, rfl, rfl, rfl, [], by simp, ?_⟩
    intro tid htid
    exact absurd htid (List.not_mem_nil tid)
  · cases par
    · rw [execute_stage_of_seq o s wf sid hsel]
      obtain ⟨h1, h2, h3, h4, h5, ext, hext, hsound⟩ :=
        run_tasks_sequential_fields o (select_stage_tasks s wf sid) s
      exact ⟨h1, h2, h3, h4, h5, ext, hext, hsound⟩
    · rw [execute_stage_of_par o s wf sid hsel]
      obtain ⟨_, h2, h3, h4, h5, h6, h7⟩ :=
        run_tasks_parallel_spec o (select_stage_tasks s wf sid) s
      refine ⟨h3, h4, h5, h6, h7,
        (select_stage_tasks s wf sid).map Task.id, h2, ?_⟩
      intro tid htid
      obtain ⟨t, ht, ht2⟩ := List.mem_map.mp htid
      exact ⟨t, ht, ht2⟩

/-- C5: `execute_stage` with `parallel = true` dispatches every
selected task (the Task Executor call log grows by exactly the
selected ids, regardless of failures), returns true iff every
selected task's execution succeeds, and leaves every selected task at
a terminal status — completed on success, failed on reported failure
or on a raised exception, which `execute_task` converts to a `false`
result instead of propagating to the caller. -/
theorem execute_stage_parallel_spec (o : Oracle) (s : Sys)
    (workflow_id stage_id : String)
    (hids : (s.tasks.map Task.id).Nodup) :
    ((execute_stage o s workflow_id stage_id true).2 = true ↔
        ∀ t ∈ select_stage_tasks s workflow_id stage_id,
          o t.id = AgentOutcome.succeed) ∧
      ((execute_stage o s workflow_id stage_id true).1.calls =
        s.calls ++ (select_stage_tasks s workflow_id stage_id).map Task.id) ∧
      (∀ t ∈ select_stage_tasks s workflow_id stage_id,
        taskStatus (execute_stage o s workflow_id stage_id true).1 t.id =
          some (if o t.id = AgentOutcome.succeed then TaskStatus.completed
            else TaskStatus.failed)) ∧
      (∀ t ∈ select_stage_tasks s workflow_id stage_id,
        o t.id = AgentOutcome.raise → (execute_task o s t).2 = false) := by
  have hconv : ∀ t ∈ select_stage_tasks s workflow_id stage_id,
      o t.id = AgentOutcome.raise → (execute_task o s t).2 = false := by
    intro t _ hr
    rw [execute_task_eq]
    simp [hr]
  by_cases hsel : select_stage_tasks s workflow_id stage_id = []
  · rw [execute_stage_of_empty o s workflow_id stage_id true hsel]
    refine ⟨by simp [hsel], by simp [hsel], by simp [hsel], hconv⟩
  · rw [execute_stage_of_par o s workflow_id stage_id hsel]
    obtain ⟨h1, h2, _, _, _, _, _⟩ :=
      run_tasks_parallel_spec o (select_stage_tasks s workflow_id stage_id) s
    refine ⟨?_, h2, ?_, hconv⟩
    · simp only [h1]
      rw [List.all_eq_true]
      constructor
      · intro hall t ht
        have := hall (decide (o t.id = AgentOutcome.succeed))
          (List.mem_map_of_mem _ ht)
        simpa using this
      · intro hall b hb
        obtain ⟨t, ht, hbt⟩ := List.mem_map.mp hb
        rw [← hbt]
        simpa using hall t ht
    · intro t ht
      exact run_tasks_parallel_status o
        (select_stage_tasks s workflow_id stage_id) s
        (select_stage_tasks_nodup s workflow_id stage_id hids)
        (fun u hu =>
          ⟨u, (select_stage_tasks_mem s workflow_id stage_id u hu).1, rfl⟩)
        t ht

/-- C6: `execute_stage` with `parallel = false` runs the selected
tasks in order: when all succeed it returns true having invoked every
selected task; at the first failing task it returns false having
invoked exactly the preceding tasks and the failing one — later tasks
in the list are never attempted. -/
theorem execute_stage_sequential_spec (o : Oracle) (s : Sys)
    (workflow_id stage_id : String) :
    ((∀ t ∈ select_stage_tasks s workflow_id stage_id,
        o t.id = AgentOutcome.succeed) →
      (execute_stage o s workflow_id stage_id false).2 = true ∧
        (execute_stage o s workflow_id stage_id false).1.calls =
          s.calls ++
            (select_stage_tasks s workflow_id stage_id).map Task.id) ∧
    (∀ pre t post,
      select_stage_tasks s workflow_id stage_id = pre ++ t :: post →
      (∀ u ∈ pre, o u.id = AgentOutcome.succeed) →
      o t.id ≠ AgentOutcome.succeed →
      (execute_stage o s workflow_id stage_id false).2 = false ∧
        (execute_stage o s workflow_id stage_id false).1.calls =
          s.calls ++ pre.map Task.id ++ [t.id]) := by
  by_cases hsel : select_stage_tasks s workflow_id stage_id = []
  · rw [execute_stage_of_empty o s workflow_id stage_id false hsel]
    constructor
    · intro _
      simp [hsel]
    · intro pre t post hsplit
      rw [hsel] at hsplit
      cases pre with
      | nil => simp at hsplit
      | cons a l => simp at hsplit
  · rw [execute_stage_of_seq o s workflow_id stage_id hsel]
    constructor
    · intro hall
      exact run_tasks_sequential_all o
        (select_stage_tasks s workflow_id stage_id) s hall
    · intro pre t post hsplit hpre hfail
      rw [hsplit]
      exact run_tasks_sequential_stop o pre t post s hpre hfail

theorem exists_key_transfer {s' s : Sys} (h : task_keys s' = task_keys s)
    {tid : String} {sid : Option String} :
    (∃ t ∈ s'.tasks, t.id = tid ∧ t.stage_id = sid) →
      ∃ t ∈ s.tasks, t.id = tid ∧ t.stage_id = sid := by
  rintro ⟨t, ht, h1, h2⟩
  have hmem : (tid, sid) ∈ task_keys s' := by
    unfold task_keys
    exact List.mem_map.mpr ⟨t, ht, by rw [h1, h2]⟩
  rw [h] at hmem
  obtain ⟨u, hu, hu2⟩ := List.mem_map.mp hmem
  obtain ⟨e1, e2⟩ := Prod.mk.injEq .. |>.mp hu2
  exact ⟨u, hu, e1, e2⟩

theorem execute_stages_loop_skip (o : Oracle) (wf : String) :
    ∀ (cs rs : List StageRec) (s : Sys),
      (∀ c ∈ cs, c.status = StageStatus.completed) →
      WorkflowEngine.execute_stages_loop o wf s (cs ++ rs) =
        WorkflowEngine.execute_stages_loop o wf s rs := by
  intro cs
  induction cs with
  | nil => intro rs s _; rfl
  | cons c cs ih =>
    intro rs s hc
    have hcc : c.status = StageStatus.completed :=
      hc c (List.mem_cons_self c cs)
    simp only [List.cons_append, WorkflowEngine.execute_stages_loop,
      if_pos hcc]
    exact ih rs s (fun u hu => hc u (List.mem_cons_of_mem c hu))

theorem execute_stages_loop_ext (o : Oracle) (wf : String) :
    ∀ (sts : List StageRec) (s : Sys),
      ∃ eext cext,
        (WorkflowEngine.execute_stages_loop o wf s sts).events =
            s.events ++ eext ∧
          (WorkflowEngine.execute_stages_loop o wf s sts).calls =
            s.calls ++ cext ∧
          (∀ tid ∈ cext, ∃ st ∈ sts, ∃ t ∈ s.tasks,
            t.id = tid ∧ t.stage_id = some st.id) ∧
          task_keys (WorkflowEngine.execute_stages_loop o wf s sts) =
            task_keys s := by
  intro sts
  induction sts with
  | nil =>
    intro s
    refine ⟨[⟨"workflow_completed", wf, none⟩], [], rfl,
      by simp only [List.append_nil]; rfl, ?_, rfl⟩
    intro tid htid
    exact absurd htid (List.not_mem_nil tid)
  | cons stage rest ih =>
    intro s
    by_cases hc : stage.status = StageStatus.completed
    · simp only [WorkflowEngine.execute_stages_loop, if_pos hc]
      obtain ⟨eext, cext, h1, h2, h3, h4⟩ := ih s
      refine ⟨eext, cext, h1, h2, ?_, h4⟩
      intro tid htid
      obtain ⟨st, hst, rest2⟩ := h3 tid htid
      exact ⟨st, List.mem_cons_of_mem stage hst, rest2⟩
    · simp only [WorkflowEngine.execute_stages_loop, if_neg hc]
      set s2 : Sys := emit (update_stage_status s stage.id StageStatus.running)
        "stage_started" wf (some stage.id) with hs2
      obtain ⟨hf1, hf2, hf3, hf4, hf5, ext0, hext0, hsound0⟩ :=
        execute_stage_fields o s2 wf stage.id stage.parallel
      set r := execute_stage o s2 wf stage.id stage.parallel with hrdef
      by_cases hr : r.2 = true
      · rw [if_pos hr]
        set s5 : Sys := emit (update_stage_status r.1 stage.id
          StageStatus.completed) "stage_completed" wf (some stage.id) with hs5
        obtain ⟨eext', cext', h1, h2, h3, h4⟩ := ih s5
        have hs5events : s5.events = s.events ++
            [⟨"stage_started", wf, some stage.id⟩,
              ⟨"stage_completed", wf, some stage.id⟩] := by
          show r.1.events ++ _ = _
          rw [hf3]
          show (s.events ++ [⟨"stage_started", wf, some stage.id⟩]) ++ _ = _
          simp
        have hs5calls : s5.calls = s.calls ++ ext0 := by
          show r.1.calls = _
          rw [hext0]
          rfl
        have hs5keys : task_keys s5 = task_keys s := by
          show task_keys r.1 = task_keys s
          rw [hf5]
          rfl
        refine ⟨[⟨"stage_started", wf, some stage.id⟩,
            ⟨"stage_completed", wf, some stage.id⟩] ++ eext',
          ext0 ++ cext', ?_, ?_, ?_, ?_⟩
        · rw [h1, hs5events, List.append_assoc]
        · rw [h2, hs5calls, List.append_assoc]
        · intro tid htid
          rcases List.mem_append.mp htid with htid | htid
          · obtain ⟨t, hts, hid⟩ := hsound0 tid htid
            obtain ⟨htmem, hsid⟩ := select_stage_tasks_mem s2 wf stage.id t hts
            exact ⟨stage, List.mem_cons_self stage rest, t, htmem, hid, hsid⟩
          · obtain ⟨st, hst, hkey⟩ := h3 tid htid
            refine ⟨st, List.mem_cons_of_mem stage hst, ?_⟩
            exact exists_key_transfer hs5keys hkey
        · rw [h4, hs5keys]
      · rw [if_neg hr]
        refine ⟨[⟨"stage_started", wf, some stage.id⟩,
            ⟨"stage_failed", wf, some stage.id⟩,
            ⟨"workflow_failed", wf, none⟩], ext0, ?_, ?_, ?_, ?_⟩
        · show (r.1.events ++ _) ++ _ = _
          rw [hf3]
          show ((s.events ++ [⟨"stage_started", wf, some stage.id⟩]) ++ _) ++
            _ = _
          simp
        · show r.1.calls = _
          rw [hext0]
          rfl
        · intro tid htid
          obtain ⟨t, hts, hid⟩ := hsound0 tid htid
          obtain ⟨htmem, hsid⟩ := select_stage_tasks_mem s2 wf stage.id t hts
          exact ⟨stage, List.mem_cons_self stage rest, t, htmem, hid, hsid⟩
        · show task_keys r.1 = task_keys s
          rw [hf5]
          rfl

theorem started_stage_ids_of_append {s' : Sys} {E ext : List Event}
    (h : s'.events = E ++ ext) :
    started_stage_ids E.length s' =
      (ext.filter fun e => decide (e.name = "stage_started")).map
        fun e => e.stage_id := by
  unfold started_stage_ids
  rw [h, List.drop_left]

theorem execute_stages_loop_started (o : Oracle) (wf : String) :
    ∀ (rs : List StageRec) (s : Sys),
      (∀ r ∈ rs, r.status ≠ StageStatus.completed) →
      ∃ m, m ≤ rs.length ∧
        started_stage_ids s.events.length
            (WorkflowEngine.execute_stages_loop o wf s rs) =
          (rs.take m).map fun r => some r.id := by
  intro rs
  induction rs with
  | nil =>
    intro s _
    refine ⟨0, Nat.le_refl 0, ?_⟩
    rw [@started_stage_ids_of_append
      (WorkflowEngine.execute_stages_loop o wf s [])
      s.events [⟨"workflow_completed", wf, none⟩] rfl]
    simp
  | cons stage rest ih =>
    intro s hnc
    have hc : ¬ stage.status = StageStatus.completed :=
      hnc stage (List.mem_cons_self stage rest)
    simp only [WorkflowEngine.execute_stages_loop, if_neg hc]
    set s2 : Sys := emit (update_stage_status s stage.id StageStatus.running)
      "stage_started" wf (some stage.id) with hs2
    obtain ⟨hf1, hf2, hf3, hf4, hf5, ext0, hext0, hsound0⟩ :=
      execute_stage_fields o s2 wf stage.id stage.parallel
    set r := execute_stage o s2 wf stage.id stage.parallel with hrdef
    by_cases hr : r.2 = true
    · rw [if_pos hr]
      set s5 : Sys := emit (update_stage_status r.1 stage.id
        StageStatus.completed) "stage_completed" wf (some stage.id) with hs5
      have hs5events : s5.events = s.events ++
          [⟨"stage_started", wf, some stage.id⟩,
            ⟨"stage_completed", wf, some stage.id⟩] := by
        show r.1.events ++ _ = _
        rw [hf3]
        show (s.events ++ [⟨"stage_started", wf, some stage.id⟩]) ++ _ = _
        simp
      obtain ⟨m', hm', hstarted5⟩ :=
        ih s5 (fun u hu => hnc u (List.mem_cons_of_mem stage hu))
      obtain ⟨eext', cext', h1, _, _, _⟩ := execute_stages_loop_ext o wf rest s5
      refine ⟨m' + 1, by simp only [List.length_cons]; omega, ?_⟩
      have hfinal : (WorkflowEngine.execute_stages_loop o wf s5 rest).events =
          s.events ++ ([⟨"stage_started", wf, some stage.id⟩,
            ⟨"stage_completed", wf, some stage.id⟩] ++ eext') := by
        rw [h1, hs5events, List.append_assoc]
      rw [started_stage_ids_of_append hfinal]
      rw [hs5events] at h1 hstarted5
      rw [started_stage_ids_of_append h1] at hstarted5
      rw [List.filter_append, List.map_append]
      rw [List.take_succ_cons, List.map_cons]
      rw [hstarted5]
      have hfl : List.filter (fun e => decide (e.name = "stage_started"))
          [(⟨"stage_started", wf, some stage.id⟩ : Event),
            ⟨"stage_completed", wf, some stage.id⟩] =
          [⟨"stage_started", wf, some stage.id⟩] := by simp
      rw [hfl]
      simp
    · rw [if_neg hr]
      refine ⟨1, by simp, ?_⟩
      have hfinal : (emit (update_workflow_status
          (emit (update_stage_status r.1 stage.id StageStatus.failed)
            "stage_failed" wf (some stage.id))
          wf WorkflowStatus.failed
          (some ("Stage " ++ stage.stage_name ++ " failed")))
          "workflow_failed" wf none).events =
          s.events ++ ([⟨"stage_started", wf, some stage.id⟩,
            ⟨"stage_failed", wf, some stage.id⟩,
            ⟨"workflow_failed", wf, none⟩]) := by
        show (r.1.events ++ _) ++ _ = _
        rw [hf3]
        show ((s.events ++ [⟨"stage_started", wf, some stage.id⟩]) ++ _) ++
          _ = _
        simp
      rw [started_stage_ids_of_append hfinal]
      simp

theorem stageStatus_congr {s1 s2 : Sys} (h : s1.stages = s2.stages)
    (sid : String) : stageStatus s1 sid = stageStatus s2 sid := by
  unfold stageStatus
  rw [h]

theorem exists_stage_id_update (s : Sys) (sid : String) (st : StageStatus)
    {tid : String} (h : ∃ u ∈ s.stages, u.id = tid) :
    ∃ u ∈ (update_stage_status s sid st).stages, u.id = tid := by
  obtain ⟨u, hu, hid⟩ := h
  refine ⟨if u.id = sid then { u with status := st } else u,
    List.mem_map_of_mem _ hu, ?_⟩
  by_cases h2 : u.id = sid
  · rw [if_pos h2]
    exact hid
  · rw [if_neg h2]
    exact hid

/-- C2: inside `execute`, when a non-completed stage's execution
reports failure, the loop marks that stage failed, marks the run
failed with the explanatory message, emits `stage_failed` then
`workflow_failed`, and returns at once: the final state is exactly
the failure-handling of the stage's post-execution state — no later
stage is started (no further `stage_started` event), executed (the
call log is the failed stage's), or altered (later stages keep their
stored status). -/
theorem engine_stage_failure_stops (o : Oracle) (wf : String) (s : Sys)
    (stage : StageRec) (post : List StageRec) (r : Sys × Bool)
    (hnc : ¬ stage.status = StageStatus.completed)
    (hst : ∃ u ∈ s.stages, u.id = stage.id)
    (hwf : ∃ w ∈ s.workflows, w.id = wf)
    (hr : r = execute_stage o
      (emit (update_stage_status s stage.id StageStatus.running)
        "stage_started" wf (some stage.id)) wf stage.id stage.parallel)
    (hfail : r.2 = false) :
    WorkflowEngine.execute_stages_loop o wf s (stage :: post) =
        emit (update_workflow_status
          (emit (update_stage_status r.1 stage.id StageStatus.failed)
            "stage_failed" wf (some stage.id))
          wf WorkflowStatus.failed
          (some ("Stage " ++ stage.stage_name ++ " failed")))
          "workflow_failed" wf none ∧
      stageStatus (WorkflowEngine.execute_stages_loop o wf s (stage :: post))
          stage.id = some StageStatus.failed ∧
      workflowStatus (WorkflowEngine.execute_stages_loop o wf s
          (stage :: post)) wf = some WorkflowStatus.failed ∧
      workflowError (WorkflowEngine.execute_stages_loop o wf s
          (stage :: post)) wf =
        some (some ("Stage " ++ stage.stage_name ++ " failed")) ∧
      (WorkflowEngine.execute_stages_loop o wf s (stage :: post)).events =
        s.events ++ [⟨"stage_started", wf, some stage.id⟩,
          ⟨"stage_failed", wf, some stage.id⟩,
          ⟨"workflow_failed", wf, none⟩] ∧
      (WorkflowEngine.execute_stages_loop o wf s (stage :: post)).calls =
        r.1.calls ∧
      ∀ p ∈ post, p.id ≠ stage.id →
        stageStatus (WorkflowEngine.execute_stages_loop o wf s
          (stage :: post)) p.id = stageStatus s p.id := by
  obtain ⟨hf1, hf2, hf3, hf4, hf5, ext0, hext0, hsound0⟩ :=
    execute_stage_fields o
      (emit (update_stage_status s stage.id StageStatus.running)
        "stage_started" wf (some stage.id)) wf stage.id stage.parallel
  have hne : ¬ r.2 = true := by rw [hfail]; simp
  have hloop : WorkflowEngine.execute_stages_loop o wf s (stage :: post) =
      emit (update_workflow_status
        (emit (update_stage_status r.1 stage.id StageStatus.failed)
          "stage_failed" wf (some stage.id))
        wf WorkflowStatus.failed
        (some ("Stage " ++ stage.stage_name ++ " failed")))
        "workflow_failed" wf none := by
    simp only [WorkflowEngine.execute_stages_loop, if_neg hnc]
    rw [← hr, if_neg hne]
  have hstagesr : r.1.stages =
      (update_stage_status s stage.id StageStatus.running).stages := by
    rw [hr]
    exact hf1
  have hwfr : r.1.workflows = s.workflows := by
    rw [hr, hf2]
    rfl
  refine ⟨hloop, ?_, ?_, ?_, ?_, ?_, ?_⟩
  · rw [hloop]
    have h1 : stageStatus (emit (update_workflow_status
        (emit (update_stage_status r.1 stage.id StageStatus.failed)
          "stage_failed" wf (some stage.id)) wf WorkflowStatus.failed
          (some ("Stage " ++ stage.stage_name ++ " failed")))
        "workflow_failed" wf none) stage.id =
        stageStatus (update_stage_status r.1 stage.id StageStatus.failed)
          stage.id := stageStatus_congr rfl stage.id
    rw [h1]
    apply stageStatus_update_stage_status_self
    rw [hstagesr]
    exact exists_stage_id_update s stage.id StageStatus.running hst
  · rw [hloop]
    show workflowStatus (update_workflow_status
      (emit (update_stage_status r.1 stage.id StageStatus.failed)
        "stage_failed" wf (some stage.id)) wf WorkflowStatus.failed
      (some ("Stage " ++ stage.stage_name ++ " failed"))) wf = _
    apply workflowStatus_update_workflow_status_self
    show ∃ w ∈ r.1.workflows, w.id = wf
    rw [hwfr]
    exact hwf
  · rw [hloop]
    show workflowError (update_workflow_status
      (emit (update_stage_status r.1 stage.id StageStatus.failed)
        "stage_failed" wf (some stage.id)) wf WorkflowStatus.failed
      (some ("Stage " ++ stage.stage_name ++ " failed"))) wf = _
    apply workflowError_update_workflow_status_failed
    show ∃ w ∈ r.1.workflows, w.id = wf
    rw [hwfr]
    exact hwf
  · rw [hloop]
    show (r.1.events ++ _) ++ _ = _
    have hevr : r.1.events = s.events ++
        [⟨"stage_started", wf, some stage.id⟩] := by
      rw [hr, hf3]
      rfl
    rw [hevr]
    simp
  · rw [hloop]
    rfl
  · intro p hp hpne
    rw [hloop]
    have h1 : stageStatus (emit (update_workflow_status
        (emit (update_stage_status r.1 stage.id StageStatus.failed)
          "stage_failed" wf (some stage.id)) wf WorkflowStatus.failed
          (some ("Stage " ++ stage.stage_name ++ " failed")))
        "workflow_failed" wf none) p.id =
        stageStatus (update_stage_status r.1 stage.id StageStatus.failed)
          p.id := stageStatus_congr rfl p.id
    rw [h1, stageStatus_update_stage_status_other r.1 stage.id p.id
      StageStatus.failed hpne]
    rw [stageStatus_congr hstagesr p.id]
    exact stageStatus_update_stage_status_other s stage.id p.id
      StageStatus.running hpne

instance : IsTotal StageRec fun a b => a.stage_order ≤ b.stage_order :=
  ⟨fun a b => Nat.le_total a.stage_order b.stage_order⟩

instance : IsTrans StageRec fun a b => a.stage_order ≤ b.stage_order :=
  ⟨fun _ _ _ h1 h2 => Nat.le_trans h1 h2⟩

theorem get_workflow_stages_sorted (s : Sys) (wf : String) :
    List.Sorted (fun a b : StageRec => a.stage_order ≤ b.stage_order)
      (get_workflow_stages s wf) :=
  List.sorted_insertionSort _ _

theorem get_workflow_stages_nodup_ids (s : Sys) (wf : String)
    (h : (s.stages.map StageRec.id).Nodup) :
    ((get_workflow_stages s wf).map StageRec.id).Nodup := by
  have hperm := List.perm_insertionSort
    (fun a b : StageRec => a.stage_order ≤ b.stage_order)
    (s.stages.filter fun st => decide (st.workflow_run_id = wf))
  have hfil : ((s.stages.filter fun st =>
      decide (st.workflow_run_id = wf)).map StageRec.id).Nodup :=
    h.sublist ((List.filter_sublist _).map StageRec.id)
  exact ((hperm.map StageRec.id).nodup_iff).mpr hfil

/-- C3: resuming a workflow whose sorted stage list splits into a
completed block `cs` followed by non-completed stages `rs` runs only
`rs`: `execute` reduces to the loop over `rs` alone; `rs` is in
non-decreasing `stage_order`; the `stage_started` events record some
initial segment of `rs` (failure stops early) and nothing else; and
the Task Executor call log gains no task belonging to any completed
stage. -/
theorem execute_resume_skips_completed (o : Oracle) (s : Sys)
    (workflow_id : String) (cs rs : List StageRec)
    (hwf : ∃ w ∈ s.workflows, w.id = workflow_id)
    (hsplit : get_workflow_stages s workflow_id = cs ++ rs)
    (hcs : ∀ c ∈ cs, c.status = StageStatus.completed)
    (hrs : ∀ r ∈ rs, r.status ≠ StageStatus.completed)
    (hstids : (s.stages.map StageRec.id).Nodup)
    (htids : (s.tasks.map Task.id).Nodup) :
    WorkflowEngine.execute o s workflow_id =
        Except.ok (WorkflowEngine.execute_stages_loop o workflow_id
          (emit (update_workflow_status s workflow_id
            WorkflowStatus.running none) "workflow_started" workflow_id none)
          rs) ∧
      List.Pairwise (fun a b : StageRec => a.stage_order ≤ b.stage_order)
        rs ∧
      (∃ m, m ≤ rs.length ∧
        started_stage_ids (emit (update_workflow_status s workflow_id
            WorkflowStatus.running none) "workflow_started" workflow_id
            none).events.length
          (WorkflowEngine.execute_stages_loop o workflow_id
            (emit (update_workflow_status s workflow_id
              WorkflowStatus.running none) "workflow_started" workflow_id
              none) rs) =
          (rs.take m).map fun r => some r.id) ∧
      ∀ t ∈ s.tasks, (∃ c ∈ cs, t.stage_id = some c.id) →
        t.id ∉ ((WorkflowEngine.execute_stages_loop o workflow_id
          (emit (update_workflow_status s workflow_id
            WorkflowStatus.running none) "workflow_started" workflow_id none)
          rs).calls.drop s.calls.length) := by
  set s2 : Sys := emit (update_workflow_status s workflow_id
    WorkflowStatus.running none) "workflow_started" workflow_id none with hs2
  have hgw : (get_workflow s workflow_id).isSome := by
    unfold get_workflow
    rw [List.find?_isSome]
    obtain ⟨w, hw, hid⟩ := hwf
    exact ⟨w, hw, by simp [hid]⟩
  obtain ⟨w0, hw0⟩ := Option.isSome_iff_exists.mp hgw
  have hstages2 : get_workflow_stages s2 workflow_id = cs ++ rs := hsplit
  refine ⟨?_, ?_, ?_, ?_⟩
  · simp only [WorkflowEngine.execute, hw0]
    rw [hstages2, execute_stages_loop_skip o workflow_id cs rs s2 hcs]
  · have hsorted := get_workflow_stages_sorted s workflow_id
    rw [hsplit] at hsorted
    exact (List.pairwise_append.mp hsorted).2.1
  · exact execute_stages_loop_started o workflow_id rs s2 hrs
  · intro t ht hcs2
    obtain ⟨c, hcmem, hcsid⟩ := hcs2
    obtain ⟨eext, cext, hev, hcalls, hsound, hkeys⟩ :=
      execute_stages_loop_ext o workflow_id rs s2
    have hcalls' : (WorkflowEngine.execute_stages_loop o workflow_id s2
        rs).calls = s.calls ++ cext := hcalls
    rw [hcalls', List.drop_left]
    intro hmem
    obtain ⟨st, hstin, u, hu, huid, husid⟩ := hsound t.id hmem
    have hu' : u ∈ s.tasks := hu
    have hut : u = t := List.inj_on_of_nodup_map htids hu' ht huid
    have htsid : t.stage_id = some st.id := hut ▸ husid
    have hid_eq : st.id = c.id := by
      have := htsid.symm.trans hcsid
      exact Option.some.inj this
    have hnd := get_workflow_stages_nodup_ids s workflow_id hstids
    rw [hsplit, List.map_append] at hnd
    obtain ⟨_, _, hdisj⟩ := List.nodup_append.mp hnd
    exact hdisj (List.mem_map_of_mem StageRec.id hcmem)
      (hid_eq ▸ List.mem_map_of_mem StageRec.id hstin)

/-! ## Claim C4 and concrete witnesses -/

/-- An oracle whose every task succeeds. -/
def oSucceed : Oracle := fun _ => AgentOutcome.succeed

def wfDone : Workflow :=
  { id := "w", workflow_type := "full_project", description := "demo",
    status := WorkflowStatus.completed, error_message := none }

def sysDone : Sys := ⟨[wfDone], [], [], [], [], []⟩

/-- C4 counterexample: `cancel` on a workflow whose stored status is
completed still moves it to cancelled — the engine checks no status,
so completed is not terminal and the claim fails as stated. -/
theorem cancel_leaves_completed_counterexample :
    workflowStatus sysDone "w" = some WorkflowStatus.completed ∧
      workflowStatus (WorkflowEngine.cancel sysDone "w") "w" =
        some WorkflowStatus.cancelled := by
  constructor
  · rfl
  · rfl

/-- C4 amended: pending is the initial status of a created
WorkflowRun, and `resume` rejects a workflow that is neither paused
nor failed; but completed, failed and cancelled are not terminal:
`pause`, `cancel` and `execute` perform no status check — for any
existing workflow, `pause` stores paused, `cancel` stores cancelled,
`execute` runs (setting the run running) — and `resume` restarts a
failed workflow. -/
theorem engine_status_transitions (o : Oracle) (s : Sys)
    (workflow_id : String) (w : Workflow)
    (hw : get_workflow s workflow_id = some w) :
    workflowStatus (WorkflowEngine.pause s workflow_id) workflow_id =
        some WorkflowStatus.paused ∧
      workflowStatus (WorkflowEngine.cancel s workflow_id) workflow_id =
        some WorkflowStatus.cancelled ∧
      (∃ s', WorkflowEngine.execute o s workflow_id = Except.ok s') ∧
      (w.status ≠ WorkflowStatus.paused → w.status ≠ WorkflowStatus.failed →
        WorkflowEngine.resume o s workflow_id =
          Except.error (EngineError.cannotResume w.status)) ∧
      (w.status = WorkflowStatus.failed →
        WorkflowEngine.resume o s workflow_id =
          WorkflowEngine.execute o s workflow_id) ∧
      (∀ wid wtype desc, (create_workflow s wid wtype desc).workflows.getLast?
        = some ⟨wid, wtype, desc, WorkflowStatus.pending, none⟩) := by
  have hpres : ∃ w' ∈ s.workflows, w'.id = workflow_id := by
    refine ⟨w, List.mem_of_find?_eq_some hw, ?_⟩
    simpa using List.find?_some hw
  refine ⟨?_, ?_, ?_, ?_, ?_, ?_⟩
  · show workflowStatus (update_workflow_status s workflow_id
      WorkflowStatus.paused none) workflow_id = _
    exact workflowStatus_update_workflow_status_self s workflow_id
      WorkflowStatus.paused none hpres
  · show workflowStatus (update_workflow_status s workflow_id
      WorkflowStatus.cancelled none) workflow_id = _
    exact workflowStatus_update_workflow_status_self s workflow_id
      WorkflowStatus.cancelled none hpres
  · refine ⟨WorkflowEngine.execute_stages_loop o workflow_id
      (emit (update_workflow_status s workflow_id WorkflowStatus.running none)
        "workflow_started" workflow_id none)
      (get_workflow_stages
        (emit (update_workflow_status s workflow_id WorkflowStatus.running
          none) "workflow_started" workflow_id none) workflow_id), ?_⟩
    simp only [WorkflowEngine.execute, hw]
  · intro h1 h2
    simp only [WorkflowEngine.resume, hw]
    rw [if_neg]
    rintro (h | h)
    · exact h1 h
    · exact h2 h
  · intro h
    simp only [WorkflowEngine.resume, hw]
    rw [if_pos (Or.inr h)]
  · intro wid wtype desc
    simp [create_workflow]

theorem engine_status_transitions_witness :
    workflowStatus (WorkflowEngine.pause sysDone "w") "w" =
        some WorkflowStatus.paused ∧
      workflowStatus (WorkflowEngine.cancel sysDone "w") "w" =
        some WorkflowStatus.cancelled ∧
      WorkflowEngine.resume oSucceed sysDone "w" =
        Except.error (EngineError.cannotResume wfDone.status) :=
  ⟨(engine_status_transitions oSucceed sysDone "w" wfDone rfl).1,
    (engine_status_transitions oSucceed sysDone "w" wfDone rfl).2.1,
    (engine_status_transitions oSucceed sysDone "w" wfDone rfl).2.2.2.1
      (by decide) (by decide)⟩

def taskT1 : Task :=
  { id := "t1", workflow_run_id := "w", stage_id := some "s1",
    status := TaskStatus.pending, agent_type := "PM" }

def taskT2 : Task :=
  { id := "t2", workflow_run_id := "w", stage_id := some "s1",
    status := TaskStatus.pending, agent_type := "QE" }

def taskT3 : Task :=
  { id := "t3", workflow_run_id := "w", stage_id := some "s1",
    status := TaskStatus.pending, agent_type := "DOE" }

def sysPar : Sys := ⟨[], [], [taskT1, taskT2, taskT3], [], [], []⟩

/-- T1 and T3 succeed, T2 reports failure. -/
def oMixed : Oracle := fun tid =>
  if tid = "t2" then AgentOutcome.fail else AgentOutcome.succeed

theorem execute_stage_parallel_spec_witness :
    taskStatus (execute_stage oMixed sysPar "w" "s1" true).1 "t2" =
        some TaskStatus.failed ∧
      taskStatus (execute_stage oMixed sysPar "w" "s1" true).1 "t1" =
        some TaskStatus.completed ∧
      (execute_stage oMixed sysPar "w" "s1" true).1.calls =
        sysPar.calls ++ (select_stage_tasks sysPar "w" "s1").map Task.id :=
  ⟨(execute_stage_parallel_spec oMixed sysPar "w" "s1" (by decide)).2.2.1
      taskT2 (by decide),
    (execute_stage_parallel_spec oMixed sysPar "w" "s1" (by decide)).2.2.1
      taskT1 (by decide),
    (execute_stage_parallel_spec oMixed sysPar "w" "s1" (by decide)).2.1⟩

def sysSeq : Sys := ⟨[], [], [taskT1, taskT2], [], [], []⟩

/-- T1 reports failure, T2 would succeed. -/
def oSeqFail : Oracle := fun tid =>
  if tid = "t1" then AgentOutcome.fail else AgentOutcome.succeed

theorem execute_stage_sequential_spec_witness :
    (execute_stage oSeqFail sysSeq "w" "s1" false).2 = false ∧
      (execute_stage oSeqFail sysSeq "w" "s1" false).1.calls =
        sysSeq.calls ++ List.map Task.id [] ++ [taskT1.id] :=
  (execute_stage_sequential_spec oSeqFail sysSeq "w" "s1").2
    [] taskT1 [taskT2] (by decide) (by decide) (by decide)

def wfRun : Workflow :=
  { id := "w", workflow_type := "fix_bug", description := "demo",
    status := WorkflowStatus.running, error_message := none }

def stageS1 : StageRec :=
  { id := "s1", workflow_run_id := "w", stage_name := "build",
    stage_order := 0, parallel := false, status := StageStatus.pending }

def stageS2 : StageRec :=
  { id := "s2", workflow_run_id := "w", stage_name := "test",
    stage_order := 1, parallel := false, status := StageStatus.pending }

def sysFail : Sys := ⟨[wfRun], [stageS1, stageS2], [taskT1], [], [], []⟩

/-- Every task reports failure. -/
def oFailAll : Oracle := fun _ => AgentOutcome.fail

theorem engine_stage_failure_stops_witness :
    stageStatus (WorkflowEngine.execute_stages_loop oFailAll "w" sysFail
        [stageS1, stageS2]) "s1" = some StageStatus.failed ∧
      workflowStatus (WorkflowEngine.execute_stages_loop oFailAll "w" sysFail
        [stageS1, stageS2]) "w" = some WorkflowStatus.failed ∧
      workflowError (WorkflowEngine.execute_stages_loop oFailAll "w" sysFail
        [stageS1, stageS2]) "w" =
        some (some ("Stage " ++ stageS1.stage_name ++ " failed")) ∧
      stageStatus (WorkflowEngine.execute_stages_loop oFailAll "w" sysFail
        [stageS1, stageS2]) "s2" = stageStatus sysFail "s2" := by
  have h := engine_stage_failure_stops oFailAll "w" sysFail stageS1 [stageS2]
    (execute_stage oFailAll
      (emit (update_stage_status sysFail stageS1.id StageStatus.running)
        "stage_started" "w" (some stageS1.id)) "w" stageS1.id
      stageS1.parallel)
    (by decide) (by decide) (by decide) rfl (by decide)
  exact ⟨h.2.1, h.2.2.1, h.2.2.2.1, h.2.2.2.2.2.2 stageS2 (by decide)
    (by decide)⟩

def stageS0 : StageRec :=
  { id := "s0", workflow_run_id := "w", stage_name := "plan",
    stage_order := 0, parallel := false, status := StageStatus.completed }

def taskDone : Task :=
  { id := "t0", workflow_run_id := "w", stage_id := some "s0",
    status := TaskStatus.completed, agent_type := "PM" }

def taskNext : Task :=
  { id := "t9", workflow_run_id := "w", stage_id := some "s2",
    status := TaskStatus.pending, agent_type := "QE" }

def sysResume : Sys :=
  ⟨[wfRun], [stageS0, stageS2], [taskDone, taskNext], [], [], []⟩

theorem execute_resume_skips_completed_witness :
    WorkflowEngine.execute oSucceed sysResume "w" =
        Except.ok (WorkflowEngine.execute_stages_loop oSucceed "w"
          (emit (update_workflow_status sysResume "w"
            WorkflowStatus.running none) "workflow_started" "w" none)
          [stageS2]) ∧
      taskDone.id ∉ ((WorkflowEngine.execute_stages_loop oSucceed "w"
        (emit (update_workflow_status sysResume "w"
          WorkflowStatus.running none) "workflow_started" "w" none)
        [stageS2]).calls.drop sysResume.calls.length) := by
  have h := execute_resume_skips_completed oSucceed sysResume "w"
    [stageS0] [stageS2] (by decide) (by decide) (by decide) (by decide)
    (by decide) (by decide)
  exact ⟨h.1, h.2.2.2 taskDone (by decide)
    ⟨stageS0, List.mem_singleton.mpr rfl, rfl⟩⟩

end AgenticBuilder
